import Mathlib

/-!
# Verification of the RRC telemetry encoder (`encoder.c`)

Shallow embedding of `_checksum`, `_float2int` and `encode`.

* `uint8_t` / `uint32_t` values are natural numbers; a store into a
  `uint8_t` is reduced `% 256`, a `uint32_t` shift `% 2 ^ 32`.
* A finite `double` is the rational number it denotes.  Every arithmetic
  operation on doubles computes the exact rational result and rounds it with
  `fl64` (IEEE 754 binary64, round to nearest, ties to even, gradual
  underflow).  The exponent range is not capped from above: a result that
  would overflow to infinity stays a rational of magnitude at least
  `2 ^ 1023`, and the only consumer of such a value is the conversion to
  `uint32_t`, which is undefined for it in both readings.
* The conversion `double → uint32_t` truncates toward zero and is undefined
  (`none`) when the truncated value does not fit in 32 bits.
* The output buffer is a list of bytes; writing through `out[0..9]` needs at
  least ten of them, otherwise the call has no defined result (`none`).
-/

set_option linter.unusedVariables false

namespace RRC

/-! ## Constants (`#define`s of `encoder.c`) -/

def RRC_ENCODER_VERSION : Nat := 3

def RRC_HEAD_GPS_LONG : Nat := 0x00
def RRC_HEAD_GPS_LAT : Nat := 0x01
def RRC_HEAD_ACC_X : Nat := 0x02
def RRC_HEAD_ACC_Y : Nat := 0x03
def RRC_HEAD_ACC_Z : Nat := 0x04
def RRC_HEAD_PRESS : Nat := 0x05
def RRC_HEAD_TEMP : Nat := 0x06
def RRC_HEAD_END : Nat := 0x07

def RRC_SHIFT_CHECKS : Nat := 0
def RRC_SHIFT_HEADER : Nat := 5
def RRC_SHIFT_DATA : Nat := 19

def RRC_MASK_CHECKS : Nat := 0x1f
def RRC_MASK_DATA : Nat := 0x1f
def RRC_MASK_TIME : Nat := 0x1f
def RRC_MASK_HEADER : Nat := 0x07

def RRC_DATAPACK_SIZE : Nat := 10

/-! ## binary64 arithmetic -/

/-- Round a rational to the nearest integer, ties to the even one. -/
def roundTiesEven (t : ℚ) : ℤ :=
  if t - ⌊t⌋ < 1 / 2 then ⌊t⌋
  else if 1 / 2 < t - ⌊t⌋ then ⌊t⌋ + 1
  else if ⌊t⌋ % 2 = 0 then ⌊t⌋
  else ⌊t⌋ + 1

/-- Binade exponent used to round `x`: `⌊log₂ |x|⌋`, but never below the
smallest normal exponent `-1022` (below it the spacing is that of the
subnormals). -/
def binade (x : ℚ) : ℤ := max (Int.log 2 |x|) (-1022)

/-- Spacing of binary64 values in the binade of `x` (53-bit significand). -/
def ulp64 (x : ℚ) : ℚ := (2 : ℚ) ^ (binade x - 52)

/-- Rounding of an exact result to binary64 (round to nearest, ties to even). -/
def fl64 (x : ℚ) : ℚ := (roundTiesEven (x / ulp64 x) : ℚ) * ulp64 x

/-- A rational is a finite double when rounding leaves it unchanged and it is
below the overflow threshold. -/
def isDouble (x : ℚ) : Prop := fl64 x = x ∧ |x| < (2 : ℚ) ^ (1024 : ℕ)

instance (x : ℚ) : Decidable (isDouble x) := by
  unfold isDouble
  exact inferInstance

/-- Multiplication of doubles (`a * b`). -/
def dmul (a b : ℚ) : ℚ := fl64 (a * b)

/-- Addition of doubles (`a + b`). -/
def dadd (a b : ℚ) : ℚ := fl64 (a + b)

/-- Conversion `double → uint32_t`: the fractional part is discarded; the
result is undefined when the integral part is not in `[0, 2^32)`. -/
def double2uint32 (x : ℚ) : Option Nat :=
  if -1 < x ∧ x < (2 : ℚ) ^ (32 : ℕ) then
    some (if 0 ≤ x then ⌊x⌋ else ⌈x⌉).toNat
  else none

/-! ## The three functions of `encoder.c` -/

/-- Embedding of `uint8_t _checksum(uint32_t data)`. -/
def _checksum (data : Nat) : Nat :=
  ((0x01 &&& (data &&& 0x01))
    ||| (0x02 &&& ((data &&& 0x80) >>> 6))
    ||| (0x04 &&& ((data &&& 0x100) >>> 6))
    ||| (0x08 &&& ((data &&& 0x8000) >>> 12))
    ||| (0x10 &&& ((data &&& 0x10000) >>> 12))) % 256

/-- Embedding of `uint32_t _float2int(double data, uint8_t header)`. -/
def _float2int (data : ℚ) (header : Nat) : Option Nat :=
  let neg : Nat := if data < 0 then 1 else 0
  let data : ℚ := if data < 0 then dmul data (-1) else data
  let int_data : Option Nat :=
    match header with
    | 0x00 => double2uint32 (dadd (dmul data 10000) (1 / 2))   -- case RRC_HEAD_GPS_LONG
    | 0x01 => double2uint32 (dadd (dmul data 10000) (1 / 2))   -- case RRC_HEAD_GPS_LAT
    | _ => double2uint32 (dadd (dmul data 100) (1 / 2))        -- default
  int_data.map fun int_data => int_data ||| ((neg <<< 23) % 2 ^ 32)

/-- The statement `out[i] |= x` on a `uint8_t` buffer. -/
def orByte (out : List Nat) (i x : Nat) : List Nat :=
  out.set i ((out.getD i 0 ||| x) % 256)

/-- The loop `for (i = 0; i < RRC_DATAPACK_SIZE; i++) out[i] = header_value;`. -/
def setHeaders (out : List Nat) (header_value : Nat) : List Nat :=
  (List.range RRC_DATAPACK_SIZE).foldl (fun o i => o.set i header_value) out

/-- Body of `encode` after the two locals `int_data` and `checks` have been
computed: returns the status byte and the buffer after the call. -/
def encodeBody (int_data checks header time : Nat) (out : List Nat) : Nat × List Nat :=
  let header_value := ((header &&& RRC_MASK_HEADER) <<< RRC_SHIFT_HEADER) % 256
  let header_value := header_value &&& (RRC_MASK_HEADER <<< RRC_SHIFT_HEADER)
  let out := setHeaders out header_value
  let out := orByte out 1 ((int_data &&& 0xf80000) >>> 19)
  let out := orByte out 2 ((int_data &&& 0x07c000) >>> 14)
  let out := orByte out 3 ((int_data &&& 0x3e00) >>> 9)
  let out := orByte out 4 ((int_data &&& 0x01f0) >>> 4)
  let out := orByte out 5 (int_data &&& 0x0f)
  let out := orByte out 6 ((time &&& 0x0f8000) >>> 15)
  let out := orByte out 7 ((time &&& 0x7c00) >>> 10)
  let out := orByte out 8 ((time &&& 0x03e0) >>> 5)
  let out := orByte out 9 (time &&& 0x1f)
  (0, out)

/-- Embedding of `uint8_t encode(double data, uint8_t header, uint32_t time,
uint8_t *out)`: the returned status together with the buffer after the call. -/
def encode (data : ℚ) (header time : Nat) (out : List Nat) : Option (Nat × List Nat) :=
  if out.length < RRC_DATAPACK_SIZE then none
  else
    match _float2int data header with
    | none => none
    | some int_data =>
      let checks := _checksum int_data
      some (encodeBody int_data checks header time out)

/-! ## Derived quantities used to state the properties -/

/-- The ten bytes written by `encode`, as arithmetic on the tag, the quantized
value and the timestamp. -/
def packet (q header time : Nat) : List Nat :=
  [header % 8 * 32,
   header % 8 * 32 + q / 2 ^ 19 % 32,
   header % 8 * 32 + q / 2 ^ 14 % 32,
   header % 8 * 32 + q / 2 ^ 9 % 32,
   header % 8 * 32 + q / 2 ^ 4 % 32,
   header % 8 * 32 + q % 16,
   header % 8 * 32 + time / 2 ^ 15 % 32,
   header % 8 * 32 + time / 2 ^ 10 % 32,
   header % 8 * 32 + time / 2 ^ 5 % 32,
   header % 8 * 32 + time % 32]

/-- Decimal scale selected by the `switch` of `_float2int`. -/
def scaleOf (header : Nat) : ℚ :=
  if header = RRC_HEAD_GPS_LONG ∨ header = RRC_HEAD_GPS_LAT then 10000 else 100

/-- The double `|data| * scale + 0.5` that `_float2int` hands to the integer
conversion, evaluated in double arithmetic. -/
def scaled (data : ℚ) (header : Nat) : ℚ :=
  dadd (dmul |data| (scaleOf header)) (1 / 2)


/-- Tag read back from a packet: `out[0] >> 5`. -/
def reassembleTag (o : List Nat) : Nat := o.getD 0 0 / 32

/-- Quantized value read back from a packet: the low 5, 5, 5, 5 and 4 bits of
`out[1..5]`, most-significant chunk first. -/
def reassembleValue (o : List Nat) : Nat :=
  o.getD 1 0 % 32 * 2 ^ 19 + o.getD 2 0 % 32 * 2 ^ 14 + o.getD 3 0 % 32 * 2 ^ 9
    + o.getD 4 0 % 32 * 2 ^ 4 + o.getD 5 0 % 16

/-- Timestamp read back from a packet: the low 5 bits of `out[6..9]`,
most-significant chunk first. -/
def reassembleTime (o : List Nat) : Nat :=
  o.getD 6 0 % 32 * 2 ^ 15 + o.getD 7 0 % 32 * 2 ^ 10 + o.getD 8 0 % 32 * 2 ^ 5
    + o.getD 9 0 % 32


/-! ## Rounding lemmas -/

theorem roundTiesEven_le (t : ℚ) (N : ℤ) (h : t ≤ N) : roundTiesEven t ≤ N := by
  have hf : ⌊t⌋ ≤ N := Int.cast_le.mp (le_trans (Int.floor_le t) h)
  have hstep : (1 : ℚ) / 2 ≤ t - ⌊t⌋ → ⌊t⌋ + 1 ≤ N := by
    intro hr
    have hlt : ((⌊t⌋ : ℤ) : ℚ) < N := by linarith
    have : ⌊t⌋ < N := Int.cast_lt.mp hlt
    omega
  unfold roundTiesEven
  split_ifs with h1 h2 h3
  · exact hf
  · exact hstep (le_of_lt h2)
  · exact hf
  · exact hstep (not_lt.mp h1)

theorem le_roundTiesEven (t : ℚ) (N : ℤ) (h : (N : ℚ) ≤ t) : N ≤ roundTiesEven t := by
  have hf : N ≤ ⌊t⌋ := Int.le_floor.mpr h
  unfold roundTiesEven
  split_ifs <;> omega

theorem roundTiesEven_intCast (N : ℤ) : roundTiesEven (N : ℚ) = N :=
  le_antisymm (roundTiesEven_le _ _ le_rfl) (le_roundTiesEven _ _ le_rfl)

theorem roundTiesEven_neg (t : ℚ) : roundTiesEven (-t) = -roundTiesEven t := by
  by_cases hint : ((⌊t⌋ : ℤ) : ℚ) = t
  · rw [← hint, ← Int.cast_neg, roundTiesEven_intCast, roundTiesEven_intCast]
  · have hlt : ((⌊t⌋ : ℤ) : ℚ) < t := lt_of_le_of_ne (Int.floor_le t) hint
    have hfl : ⌊-t⌋ = -⌊t⌋ - 1 := by
      rw [Int.floor_eq_iff]
      have := Int.lt_floor_add_one t
      push_cast
      constructor <;> linarith
    unfold roundTiesEven
    rw [hfl]
    push_cast
    split_ifs <;> first | omega | (exfalso; linarith)


theorem ulp64_pos (x : ℚ) : 0 < ulp64 x := zpow_pos (by norm_num) _

theorem binade_neg (x : ℚ) : binade (-x) = binade x := by
  unfold binade; rw [abs_neg]

theorem ulp64_neg (x : ℚ) : ulp64 (-x) = ulp64 x := by
  unfold ulp64; rw [binade_neg]

theorem fl64_neg (x : ℚ) : fl64 (-x) = -fl64 x := by
  unfold fl64
  rw [ulp64_neg, neg_div, roundTiesEven_neg]
  push_cast
  ring

theorem fl64_zero : fl64 0 = 0 := by
  unfold fl64
  rw [zero_div]
  have := roundTiesEven_intCast 0
  simp only [Int.cast_zero] at this
  rw [this]
  simp

theorem lt_two_pow_binade (x : ℚ) (hx : 0 ≤ x) : x < (2 : ℚ) ^ (binade x + 1) := by
  have h1 : x < ((2 : ℕ) : ℚ) ^ (Int.log 2 x + 1) := Int.lt_zpow_succ_log_self (by norm_num) x
  have h2 : Int.log 2 x + 1 ≤ binade x + 1 := by
    unfold binade; rw [abs_of_nonneg hx]
    have := le_max_left (Int.log 2 x) (-1022)
    omega
  have h3 : ((2 : ℕ) : ℚ) ^ (Int.log 2 x + 1) ≤ (2 : ℚ) ^ (binade x + 1) := by
    push_cast
    exact zpow_le_zpow_right₀ (by norm_num) h2
  exact lt_of_lt_of_le h1 h3

theorem two_pow_binade_le (x : ℚ) (hx : 0 < x) (hb : -1022 < binade x) :
    (2 : ℚ) ^ binade x ≤ x := by
  have hlog : binade x = Int.log 2 x := by
    unfold binade at hb ⊢
    rw [abs_of_pos hx] at hb ⊢
    rcases le_total (Int.log 2 x) (-1022) with h | h
    · rw [max_eq_right h] at hb; omega
    · exact max_eq_left h
  rw [hlog]
  have := @Int.zpow_log_le_self ℚ _ _ 2 x (by norm_num) hx
  simpa using this

/-- The dyadic `n * 2 ^ k` written in units of `2 ^ j` when `j ≤ k`. -/
theorem dyadic_units (n : ℕ) (k j : ℤ) (h : j ≤ k) :
    (((n : ℤ) * 2 ^ (k - j).toNat : ℤ) : ℚ) * (2 : ℚ) ^ j = (n : ℚ) * (2 : ℚ) ^ k := by
  have h2 : (2 : ℚ) ^ k = (2 : ℚ) ^ ((k - j).toNat : ℤ) * (2 : ℚ) ^ j := by
    rw [← zpow_add₀ (by norm_num : (2 : ℚ) ≠ 0), Int.toNat_of_nonneg (by omega)]
    congr 1; ring
  rw [h2, zpow_natCast]
  push_cast
  ring

theorem fl64_le_dyadic (x : ℚ) (n : ℕ) (k : ℤ) (hx : 0 ≤ x) (hn : n < 2 ^ 53)
    (hk : -1074 ≤ k) (h : x ≤ (n : ℚ) * (2 : ℚ) ^ k) : fl64 x ≤ (n : ℚ) * (2 : ℚ) ^ k := by
  by_cases hj : binade x - 52 ≤ k
  · have hu := dyadic_units n k (binade x - 52) hj
    have hle : x / ulp64 x ≤ (((n : ℤ) * 2 ^ (k - (binade x - 52)).toNat : ℤ) : ℚ) := by
      rw [div_le_iff₀ (ulp64_pos x)]
      unfold ulp64
      rw [hu]; exact h
    have := roundTiesEven_le _ _ hle
    unfold fl64
    calc (roundTiesEven (x / ulp64 x) : ℚ) * ulp64 x
        ≤ (((n : ℤ) * 2 ^ (k - (binade x - 52)).toNat : ℤ) : ℚ) * ulp64 x :=
          mul_le_mul_of_nonneg_right (Int.cast_le.mpr this) (le_of_lt (ulp64_pos x))
      _ = (n : ℚ) * (2 : ℚ) ^ k := hu
  · rcases eq_or_lt_of_le hx with h0 | hpos
    · rw [← h0, fl64_zero]; positivity
    · exfalso
      have h1 := two_pow_binade_le x hpos (by omega)
      have h2 : (n : ℚ) * (2 : ℚ) ^ k < (2 : ℚ) ^ (53 : ℕ) * (2 : ℚ) ^ k := by
        apply mul_lt_mul_of_pos_right _ (zpow_pos (by norm_num) _)
        exact_mod_cast hn
      have h3 : (2 : ℚ) ^ (53 : ℕ) * (2 : ℚ) ^ k = (2 : ℚ) ^ (53 + k) := by
        rw [← zpow_natCast, ← zpow_add₀ (by norm_num : (2 : ℚ) ≠ 0)]; rfl
      have h4 : (2 : ℚ) ^ (53 + k) ≤ (2 : ℚ) ^ binade x :=
        zpow_le_zpow_right₀ (by norm_num) (by omega)
      linarith

theorem two_pow_52_mul_ulp64 (x : ℚ) :
    (((2 : ℤ) ^ (52 : ℕ) : ℤ) : ℚ) * ulp64 x = (2 : ℚ) ^ binade x := by
  unfold ulp64
  rw [Int.cast_pow, Int.cast_ofNat, ← zpow_natCast, ← zpow_add₀ (by norm_num : (2 : ℚ) ≠ 0)]
  congr 1
  push_cast
  ring

theorem dyadic_le_fl64 (x : ℚ) (n : ℕ) (k : ℤ) (hx : 0 ≤ x) (hn : n < 2 ^ 53)
    (hk : -1074 ≤ k) (h : (n : ℚ) * (2 : ℚ) ^ k ≤ x) : (n : ℚ) * (2 : ℚ) ^ k ≤ fl64 x := by
  by_cases hj : binade x - 52 ≤ k
  · have hu := dyadic_units n k (binade x - 52) hj
    have hle : (((n : ℤ) * 2 ^ (k - (binade x - 52)).toNat : ℤ) : ℚ) ≤ x / ulp64 x := by
      rw [le_div_iff₀ (ulp64_pos x)]
      unfold ulp64
      rw [hu]; exact h
    have := le_roundTiesEven _ _ hle
    unfold fl64
    calc (n : ℚ) * (2 : ℚ) ^ k
        = (((n : ℤ) * 2 ^ (k - (binade x - 52)).toNat : ℤ) : ℚ) * ulp64 x := hu.symm
      _ ≤ (roundTiesEven (x / ulp64 x) : ℚ) * ulp64 x :=
          mul_le_mul_of_nonneg_right (Int.cast_le.mpr this) (le_of_lt (ulp64_pos x))
  · rcases eq_or_lt_of_le hx with h0 | hpos
    · rw [← h0, fl64_zero]; rw [← h0] at h; exact h
    · have h1 := two_pow_binade_le x hpos (by omega)
      have h2 : (n : ℚ) * (2 : ℚ) ^ k < (2 : ℚ) ^ (53 : ℕ) * (2 : ℚ) ^ k := by
        apply mul_lt_mul_of_pos_right _ (zpow_pos (by norm_num) _)
        exact_mod_cast hn
      have h3 : (2 : ℚ) ^ (53 : ℕ) * (2 : ℚ) ^ k = (2 : ℚ) ^ (53 + k) := by
        rw [← zpow_natCast, ← zpow_add₀ (by norm_num : (2 : ℚ) ≠ 0)]; rfl
      have h4 : (2 : ℚ) ^ (53 + k) ≤ (2 : ℚ) ^ binade x :=
        zpow_le_zpow_right₀ (by norm_num) (by omega)
      have e := two_pow_52_mul_ulp64 x
      have h5 : (((2 : ℤ) ^ (52 : ℕ) : ℤ) : ℚ) ≤ x / ulp64 x := by
        rw [le_div_iff₀ (ulp64_pos x), e]; exact h1
      have h6 := le_roundTiesEven _ _ h5
      have h7 : (2 : ℚ) ^ binade x ≤ fl64 x := by
        unfold fl64
        rw [← e]
        exact mul_le_mul_of_nonneg_right (Int.cast_le.mpr h6) (le_of_lt (ulp64_pos x))
      linarith


/-! ## The quantizer in terms of `scaled` -/

theorem fl64_nonneg (x : ℚ) (hx : 0 ≤ x) : 0 ≤ fl64 x := by
  have := dyadic_le_fl64 x 0 0 hx (by norm_num) (by norm_num) (by simpa using hx)
  simpa using this

theorem fl64_dyadic (n : ℕ) (k : ℤ) (hn : n < 2 ^ 53) (hk : -1074 ≤ k) :
    fl64 ((n : ℚ) * (2 : ℚ) ^ k) = (n : ℚ) * (2 : ℚ) ^ k :=
  le_antisymm (fl64_le_dyadic _ n k (by positivity) hn hk le_rfl)
    (dyadic_le_fl64 _ n k (by positivity) hn hk le_rfl)

theorem dmul_neg_one (v : ℚ) (hv : isDouble v) : dmul v (-1) = -v := by
  unfold dmul
  rw [mul_neg_one, fl64_neg, hv.1]

theorem scaled_nonneg (v : ℚ) (h : Nat) : 0 ≤ scaled v h := by
  unfold scaled dadd dmul
  apply fl64_nonneg
  have h1 : 0 ≤ scaleOf h := by unfold scaleOf; split_ifs <;> norm_num
  have := fl64_nonneg (|v| * scaleOf h) (mul_nonneg (abs_nonneg v) h1)
  linarith

theorem double2uint32_of_nonneg (x : ℚ) (h0 : 0 ≤ x) (h : x < (2 : ℚ) ^ (32 : ℕ)) :
    double2uint32 x = some ⌊x⌋.toNat := by
  unfold double2uint32
  rw [if_pos ⟨by linarith, h⟩, if_pos h0]

theorem double2uint32_eq (x : ℚ) (n : ℕ) (h1 : (n : ℚ) ≤ x) (h2 : x < (n : ℚ) + 1)
    (h3 : n < 2 ^ 32) : double2uint32 x = some n := by
  have hx : x < (2 : ℚ) ^ (32 : ℕ) := by
    have : (n : ℚ) + 1 ≤ (2 : ℚ) ^ (32 : ℕ) := by exact_mod_cast h3
    linarith
  rw [double2uint32_of_nonneg x (le_trans (Nat.cast_nonneg n) h1) hx]
  have : ⌊x⌋ = (n : ℤ) := by
    rw [Int.floor_eq_iff]
    push_cast
    exact ⟨h1, h2⟩
  rw [this, Int.toNat_natCast]

theorem float2int_switch (d : ℚ) (header : Nat) :
    (match header with
      | 0x00 => double2uint32 (dadd (dmul d 10000) (1 / 2))
      | 0x01 => double2uint32 (dadd (dmul d 10000) (1 / 2))
      | _ => double2uint32 (dadd (dmul d 100) (1 / 2)))
      = double2uint32 (dadd (dmul d (scaleOf header)) (1 / 2)) := by
  rcases header with _ | _ | n
  · simp [scaleOf, RRC_HEAD_GPS_LONG]
  · simp [scaleOf, RRC_HEAD_GPS_LAT]
  · simp [scaleOf, RRC_HEAD_GPS_LONG, RRC_HEAD_GPS_LAT]

theorem float2int_of_nonneg (v : ℚ) (header : Nat) (hv : 0 ≤ v) :
    _float2int v header = double2uint32 (scaled v header) := by
  unfold _float2int
  simp only [float2int_switch, if_neg (not_lt.mpr hv), scaled, abs_of_nonneg hv]
  simp

theorem float2int_of_neg (v : ℚ) (header : Nat) (hv : v < 0) (hd : isDouble v) :
    _float2int v header = (double2uint32 (scaled v header)).map fun m => m ||| 2 ^ 23 := by
  unfold _float2int
  simp only [float2int_switch, if_pos hv, scaled, abs_of_neg hv, dmul_neg_one v hd]
  rfl


/-! ## Bit-level lemmas -/

theorem and_shl_mask_shr (q w k : Nat) :
    (q &&& ((2 ^ w - 1) <<< k)) >>> k = q / 2 ^ k % 2 ^ w := by
  apply Nat.eq_of_testBit_eq
  intro i
  rw [Nat.testBit_shiftRight, Nat.testBit_and, Nat.testBit_shiftLeft, Nat.testBit_mod_two_pow,
    Nat.testBit_two_pow_sub_one, ← Nat.shiftRight_eq_div_pow, Nat.testBit_shiftRight]
  have h1 : k + i ≥ k := by omega
  have h2 : k + i - k = i := by omega
  simp [h1, h2, Bool.and_comm]

theorem headerValue_eq (header : Nat) :
    (((header &&& RRC_MASK_HEADER) <<< RRC_SHIFT_HEADER) % 256)
      &&& (RRC_MASK_HEADER <<< RRC_SHIFT_HEADER) = header % 8 * 32 := by
  have h : header &&& RRC_MASK_HEADER = header % 8 :=
    Nat.and_pow_two_sub_one_eq_mod header 3
  rw [h]
  have hlt : header % 8 < 8 := Nat.mod_lt _ (by decide)
  revert hlt
  generalize header % 8 = a
  revert a
  decide

theorem tag_or_chunk : ∀ a, a < 8 → ∀ b, b < 32 → (a * 32 ||| b) % 256 = a * 32 + b := by
  decide


theorem data_chunk1 (q : Nat) : (q &&& 0xf80000) >>> 19 = q / 2 ^ 19 % 32 := and_shl_mask_shr q 5 19
theorem data_chunk2 (q : Nat) : (q &&& 0x07c000) >>> 14 = q / 2 ^ 14 % 32 := and_shl_mask_shr q 5 14
theorem data_chunk3 (q : Nat) : (q &&& 0x3e00) >>> 9 = q / 2 ^ 9 % 32 := and_shl_mask_shr q 5 9
theorem data_chunk4 (q : Nat) : (q &&& 0x01f0) >>> 4 = q / 2 ^ 4 % 32 := and_shl_mask_shr q 5 4
theorem data_chunk5 (q : Nat) : q &&& 0x0f = q % 16 := Nat.and_pow_two_sub_one_eq_mod q 4
theorem time_chunk1 (t : Nat) : (t &&& 0x0f8000) >>> 15 = t / 2 ^ 15 % 32 := and_shl_mask_shr t 5 15
theorem time_chunk2 (t : Nat) : (t &&& 0x7c00) >>> 10 = t / 2 ^ 10 % 32 := and_shl_mask_shr t 5 10
theorem time_chunk3 (t : Nat) : (t &&& 0x03e0) >>> 5 = t / 2 ^ 5 % 32 := and_shl_mask_shr t 5 5
theorem time_chunk4 (t : Nat) : t &&& 0x1f = t % 32 := Nat.and_pow_two_sub_one_eq_mod t 5

theorem range_size : List.range RRC_DATAPACK_SIZE = [0, 1, 2, 3, 4, 5, 6, 7, 8, 9] := by
  simp [RRC_DATAPACK_SIZE, List.range_succ]

theorem setHeaders_cons (a0 a1 a2 a3 a4 a5 a6 a7 a8 a9 hv : Nat) (rest : List Nat) :
    setHeaders (a0 :: a1 :: a2 :: a3 :: a4 :: a5 :: a6 :: a7 :: a8 :: a9 :: rest) hv
      = hv :: hv :: hv :: hv :: hv :: hv :: hv :: hv :: hv :: hv :: rest := by
  simp only [setHeaders, range_size, List.foldl, List.set]

theorem encodeBody_cons (q c header time : Nat) (a0 a1 a2 a3 a4 a5 a6 a7 a8 a9 : Nat)
    (rest : List Nat) :
    encodeBody q c header time (a0 :: a1 :: a2 :: a3 :: a4 :: a5 :: a6 :: a7 :: a8 :: a9 :: rest)
      = (0, packet q header time ++ rest) := by
  have h8 : header % 8 < 8 := Nat.mod_lt _ (by decide)
  have m32 : ∀ x : Nat, x % 32 < 32 := fun x => Nat.mod_lt _ (by decide)
  have m16 : q % 16 < 32 := lt_trans (Nat.mod_lt _ (by decide)) (by decide)
  unfold encodeBody
  simp only [headerValue_eq, data_chunk1, data_chunk2, data_chunk3, data_chunk4, data_chunk5,
    time_chunk1, time_chunk2, time_chunk3, time_chunk4, setHeaders_cons]
  simp only [List.set, orByte, List.getD_cons_zero, List.getD_cons_succ,
    packet, List.cons_append, List.nil_append, tag_or_chunk _ h8 _ (m32 _),
    tag_or_chunk _ h8 _ m16]

theorem encodeBody_eq (q c header time : Nat) (out : List Nat)
    (hlen : RRC_DATAPACK_SIZE ≤ out.length) :
    encodeBody q c header time out = (0, packet q header time ++ out.drop 10) := by
  unfold RRC_DATAPACK_SIZE at hlen
  match out, hlen with
  | a0 :: a1 :: a2 :: a3 :: a4 :: a5 :: a6 :: a7 :: a8 :: a9 :: rest, _ =>
    rw [encodeBody_cons]
    rfl

theorem encode_eq (data : ℚ) (header time q : Nat) (out : List Nat)
    (hlen : RRC_DATAPACK_SIZE ≤ out.length) (hq : _float2int data header = some q) :
    encode data header time out = some (0, packet q header time ++ out.drop 10) := by
  unfold encode
  rw [if_neg (Nat.not_lt.mpr hlen), hq]
  simp only [encodeBody_eq _ _ _ _ _ hlen]


/-! ## Evaluation at exactly representable inputs -/

theorem scaled_of_nat (v : ℚ) (h : Nat) (a : ℕ) (ha : |v| * scaleOf h = a) (hlt : a < 2 ^ 52) :
    scaled v h = (a : ℚ) + 1 / 2 := by
  unfold scaled dadd dmul
  rw [ha]
  have h1 : fl64 (a : ℚ) = a := by
    have := fl64_dyadic a 0 (by omega) (by norm_num)
    simpa using this
  rw [h1]
  have h2 := fl64_dyadic (2 * a + 1) (-1) (by omega) (by norm_num)
  have e : ((2 * a + 1 : ℕ) : ℚ) * (2 : ℚ) ^ (-1 : ℤ) = (a : ℚ) + 1 / 2 := by
    push_cast
    rw [zpow_neg_one]
    ring
  rw [e] at h2
  exact h2

theorem double2uint32_scaled_of_nat (v : ℚ) (h : Nat) (a : ℕ) (ha : |v| * scaleOf h = a)
    (hlt : a < 2 ^ 32) : double2uint32 (scaled v h) = some a := by
  rw [scaled_of_nat v h a ha (by omega)]
  exact double2uint32_eq _ a (by linarith) (by linarith) hlt

theorem isDouble_neg_of_dyadic (n : ℕ) (k : ℤ) (hn : n < 2 ^ 53) (hk : -1074 ≤ k)
    (hk2 : k ≤ 971) : isDouble (-((n : ℚ) * (2 : ℚ) ^ k)) := by
  constructor
  · rw [fl64_neg, fl64_dyadic n k hn hk]
  · rw [abs_neg, abs_of_nonneg (by positivity)]
    have h1 : (n : ℚ) * (2 : ℚ) ^ k < (2 : ℚ) ^ (53 : ℕ) * (2 : ℚ) ^ k := by
      apply mul_lt_mul_of_pos_right _ (zpow_pos (by norm_num) _)
      exact_mod_cast hn
    have h2 : (2 : ℚ) ^ (53 : ℕ) * (2 : ℚ) ^ k = (2 : ℚ) ^ (53 + k) := by
      rw [← zpow_natCast, ← zpow_add₀ (by norm_num : (2 : ℚ) ≠ 0)]; rfl
    have h3 : (2 : ℚ) ^ (53 + k) ≤ (2 : ℚ) ^ ((1024 : ℕ) : ℤ) :=
      zpow_le_zpow_right₀ (by norm_num) (by push_cast; omega)
    rw [zpow_natCast] at h3
    linarith

theorem float2int_scenarioA : _float2int 1 0x02 = some 100 := by
  rw [float2int_of_nonneg _ _ (by norm_num)]
  exact double2uint32_scaled_of_nat _ _ 100 (by norm_num [scaleOf, RRC_HEAD_GPS_LONG, RRC_HEAD_GPS_LAT]) (by norm_num)

theorem float2int_scenarioB : _float2int (-5 / 2) 0x06 = some 0x8000FA := by
  have hd : isDouble (-5 / 2) := by
    have := isDouble_neg_of_dyadic 5 (-1) (by norm_num) (by norm_num) (by norm_num)
    have e : -(((5 : ℕ) : ℚ) * (2 : ℚ) ^ (-1 : ℤ)) = -5 / 2 := by
      rw [zpow_neg_one]; norm_num
    rwa [e] at this
  rw [float2int_of_neg _ _ (by norm_num) hd,
    double2uint32_scaled_of_nat _ _ 250
      (by norm_num [scaleOf, RRC_HEAD_GPS_LONG, RRC_HEAD_GPS_LAT, abs_of_neg]) (by norm_num)]
  rfl

theorem float2int_one_gps : _float2int 1 0 = some 10000 := by
  rw [float2int_of_nonneg _ _ (by norm_num)]
  exact double2uint32_scaled_of_nat _ _ 10000
    (by norm_num [scaleOf, RRC_HEAD_GPS_LONG, RRC_HEAD_GPS_LAT]) (by norm_num)

theorem float2int_one_eight : _float2int 1 (0 + 8 * 1) = some 100 := by
  rw [float2int_of_nonneg _ _ (by norm_num)]
  exact double2uint32_scaled_of_nat _ _ 100
    (by norm_num [scaleOf, RRC_HEAD_GPS_LONG, RRC_HEAD_GPS_LAT]) (by norm_num)

theorem float2int_congr (v : ℚ) (h1 h2 : Nat) (hs : scaleOf h1 = scaleOf h2) :
    _float2int v h1 = _float2int v h2 := by
  unfold _float2int
  simp only [float2int_switch, hs]

theorem and_bit (data i : Nat) : data &&& 2 ^ i = (data / 2 ^ i % 2) * 2 ^ i := by
  rw [Nat.and_two_pow, Nat.toNat_testBit]

theorem checksum_eq (data : Nat) :
    _checksum data
      = data % 2 + 2 * (data / 2 ^ 7 % 2) + 4 * (data / 2 ^ 8 % 2)
        + 8 * (data / 2 ^ 15 % 2) + 16 * (data / 2 ^ 16 % 2) := by
  unfold _checksum
  have h0 : data &&& 0x01 = (data / 2 ^ 0 % 2) * 2 ^ 0 := and_bit data 0
  have h7 : data &&& 0x80 = (data / 2 ^ 7 % 2) * 2 ^ 7 := and_bit data 7
  have h8 : data &&& 0x100 = (data / 2 ^ 8 % 2) * 2 ^ 8 := and_bit data 8
  have h15 : data &&& 0x8000 = (data / 2 ^ 15 % 2) * 2 ^ 15 := and_bit data 15
  have h16 : data &&& 0x10000 = (data / 2 ^ 16 % 2) * 2 ^ 16 := and_bit data 16
  rw [h0, h7, h8, h15, h16]
  have e0 : data / 2 ^ 0 % 2 = data % 2 := by simp
  rw [e0]
  have c0 : data % 2 = 0 ∨ data % 2 = 1 := by omega
  have c7 : data / 2 ^ 7 % 2 = 0 ∨ data / 2 ^ 7 % 2 = 1 := by omega
  have c8 : data / 2 ^ 8 % 2 = 0 ∨ data / 2 ^ 8 % 2 = 1 := by omega
  have c15 : data / 2 ^ 15 % 2 = 0 ∨ data / 2 ^ 15 % 2 = 1 := by omega
  have c16 : data / 2 ^ 16 % 2 = 0 ∨ data / 2 ^ 16 % 2 = 1 := by omega
  rcases c0 with p0 | p0 <;> rcases c7 with p7 | p7 <;> rcases c8 with p8 | p8 <;>
    rcases c15 with p15 | p15 <;> rcases c16 with p16 | p16 <;>
    rw [p0, p7, p8, p15, p16] <;> rfl


/-! ## Magnitude bounds for the quantizer -/

theorem or_sign_bit (m : Nat) (hm : m < 2 ^ 23) : m ||| 2 ^ 23 = m + 2 ^ 23 := by
  have := Nat.mul_add_lt_is_or hm 1
  rw [Nat.mul_one] at this
  rw [Nat.lor_comm, ← this, Nat.add_comm]

theorem lt_of_floor_toNat_lt (x : ℚ) (n : ℕ) (h : ⌊x⌋.toNat < n) : x < n := by
  have h1 : x < (⌊x⌋ : ℚ) + 1 := Int.lt_floor_add_one x
  have h2 : ⌊x⌋ ≤ (⌊x⌋.toNat : ℤ) := Int.self_le_toNat _
  have h3 : (⌊x⌋.toNat : ℤ) + 1 ≤ (n : ℤ) := by exact_mod_cast h
  have h4 : (⌊x⌋ : ℚ) + 1 ≤ (n : ℚ) := by exact_mod_cast (by omega : ⌊x⌋ + 1 ≤ (n : ℤ))
  linarith

theorem float2int_of_magnitude_lt (v : ℚ) (h : Nat) (hd : isDouble v)
    (hm : ⌊scaled v h⌋.toNat < 2 ^ 23) :
    _float2int v h
      = some (if v < 0 then ⌊scaled v h⌋.toNat + 2 ^ 23 else ⌊scaled v h⌋.toNat) := by
  have hx : scaled v h < (2 : ℚ) ^ (32 : ℕ) := by
    have := lt_of_floor_toNat_lt _ _ hm
    have h2 : (((2 : ℕ) ^ 23 : ℕ) : ℚ) ≤ (2 : ℚ) ^ (32 : ℕ) := by norm_num
    linarith
  have hc := double2uint32_of_nonneg _ (scaled_nonneg v h) hx
  by_cases hv : v < 0
  · rw [float2int_of_neg v h hv hd, hc, if_pos hv, Option.map_some', or_sign_bit _ hm]
  · rw [float2int_of_nonneg v h (not_lt.mp hv), hc, if_neg hv]

theorem quarter_eq (n : ℕ) : ((n : ℚ)) * (2 : ℚ) ^ (-2 : ℤ) = (n : ℚ) / 4 := by
  rw [zpow_neg, div_eq_mul_inv]
  norm_num

theorem scaled_le_of (v : ℚ) (h : Nat) (n : ℕ) (hv : 0 ≤ v) (hn : n < 2 ^ 52)
    (hle : v * scaleOf h ≤ (n : ℚ) / 4) : scaled v h ≤ ((n + 2 : ℕ) : ℚ) / 4 := by
  have hs : 0 ≤ scaleOf h := by unfold scaleOf; split_ifs <;> norm_num
  unfold scaled dadd dmul
  rw [abs_of_nonneg hv]
  have h1 : fl64 (v * scaleOf h) ≤ (n : ℚ) / 4 := by
    rw [← quarter_eq] at hle ⊢
    exact fl64_le_dyadic _ n (-2) (mul_nonneg hv hs) (by omega) (by norm_num) hle
  have h0 := fl64_nonneg _ (mul_nonneg hv hs)
  have h2 : fl64 (v * scaleOf h) + 1 / 2 ≤ ((n + 2 : ℕ) : ℚ) / 4 := by
    push_cast; linarith
  rw [← quarter_eq] at h2 ⊢
  exact fl64_le_dyadic _ (n + 2) (-2) (by linarith) (by omega) (by norm_num) h2

theorem le_scaled_of (v : ℚ) (h : Nat) (n : ℕ) (hv : 0 ≤ v) (hn : n < 2 ^ 52)
    (hle : (n : ℚ) / 4 ≤ v * scaleOf h) : ((n + 2 : ℕ) : ℚ) / 4 ≤ scaled v h := by
  have hs : 0 ≤ scaleOf h := by unfold scaleOf; split_ifs <;> norm_num
  unfold scaled dadd dmul
  rw [abs_of_nonneg hv]
  have h1 : (n : ℚ) / 4 ≤ fl64 (v * scaleOf h) := by
    rw [← quarter_eq] at hle ⊢
    exact dyadic_le_fl64 _ n (-2) (mul_nonneg hv hs) (by omega) (by norm_num) hle
  have h0 := fl64_nonneg _ (mul_nonneg hv hs)
  have h2 : ((n + 2 : ℕ) : ℚ) / 4 ≤ fl64 (v * scaleOf h) + 1 / 2 := by
    push_cast; linarith
  rw [← quarter_eq] at h2 ⊢
  exact dyadic_le_fl64 _ (n + 2) (-2) (by linarith) (by omega) (by norm_num) h2

/-- A non-negative reading whose exact scaled value is at most `8388607.25`
quantizes to at most `0x7FFFFF`. -/
theorem float2int_le_max (v : ℚ) (h : Nat) (hv : 0 ≤ v)
    (hle : v * scaleOf h ≤ 33554429 / 4) :
    ∃ q, _float2int v h = some q ∧ q ≤ 0x7FFFFF := by
  have hs := scaled_le_of v h 33554429 hv (by norm_num) (by exact_mod_cast hle)
  have hs' : scaled v h < 8388608 := by
    have : (((33554429 + 2 : ℕ) : ℚ)) / 4 < 8388608 := by norm_num
    linarith
  have hx : scaled v h < (2 : ℚ) ^ (32 : ℕ) := by
    have : (8388608 : ℚ) ≤ (2 : ℚ) ^ (32 : ℕ) := by norm_num
    linarith
  refine ⟨⌊scaled v h⌋.toNat, ?_, ?_⟩
  · rw [float2int_of_nonneg v h hv, double2uint32_of_nonneg _ (scaled_nonneg v h) hx]
  · have hf : ⌊scaled v h⌋ < 8388608 := by
      rw [Int.floor_lt]; exact_mod_cast hs'
    omega

theorem float2int_hundred_thousand : _float2int 100000 0x02 = some 10000000 := by
  rw [float2int_of_nonneg _ _ (by norm_num)]
  exact double2uint32_scaled_of_nat _ _ 10000000
    (by norm_num [scaleOf, RRC_HEAD_GPS_LONG, RRC_HEAD_GPS_LAT]) (by norm_num)

theorem float2int_two_hundred_thousand : _float2int 200000 0x02 = some 20000000 := by
  rw [float2int_of_nonneg _ _ (by norm_num)]
  exact double2uint32_scaled_of_nat _ _ 20000000
    (by norm_num [scaleOf, RRC_HEAD_GPS_LONG, RRC_HEAD_GPS_LAT]) (by norm_num)

theorem float2int_zero : _float2int 0 0x00 = some 0 := by
  rw [float2int_of_nonneg _ _ le_rfl]
  exact double2uint32_scaled_of_nat _ _ 0 (by norm_num) (by norm_num)

theorem isDouble_natCast (n : ℕ) (hn : n < 2 ^ 53) : isDouble (n : ℚ) := by
  constructor
  · have := fl64_dyadic n 0 hn (by norm_num)
    simpa using this
  · rw [abs_of_nonneg (Nat.cast_nonneg n)]
    have h1 : (n : ℚ) < (2 : ℚ) ^ (53 : ℕ) := by exact_mod_cast hn
    have h2 : (2 : ℚ) ^ (53 : ℕ) ≤ (2 : ℚ) ^ (1024 : ℕ) :=
      pow_le_pow_right₀ (by norm_num) (by norm_num)
    linarith

theorem isDouble_neg_five_halves : isDouble (-5 / 2) := by
  have := isDouble_neg_of_dyadic 5 (-1) (by norm_num) (by norm_num) (by norm_num)
  have e : -(((5 : ℕ) : ℚ) * (2 : ℚ) ^ (-1 : ℤ)) = -5 / 2 := by
    rw [zpow_neg_one]; norm_num
  rwa [e] at this

theorem scaled_neg_five_halves : scaled (-5 / 2) 0x06 = 501 / 2 := by
  rw [scaled_of_nat _ _ 250
    (by norm_num [scaleOf, RRC_HEAD_GPS_LONG, RRC_HEAD_GPS_LAT, abs_of_neg]) (by norm_num)]
  norm_num

theorem floor_scaled_neg_five_halves : ⌊scaled (-5 / 2) 0x06⌋.toNat = 250 := by
  rw [scaled_neg_five_halves]
  have : ⌊(501 / 2 : ℚ)⌋ = 250 := by
    rw [Int.floor_eq_iff]; norm_num
  rw [this]; rfl

/-- The double nearest to `838.8607` lies between two nearby dyadic numbers. -/
theorem gps_boundary_bounds :
    (54975574 : ℚ) / 65536 ≤ fl64 (8388607 / 10000) ∧
    fl64 (8388607 / 10000) ≤ (54975575 : ℚ) / 65536 := by
  have e1 : ((54975574 : ℕ) : ℚ) * (2 : ℚ) ^ (-16 : ℤ) = (54975574 : ℚ) / 65536 := by
    rw [zpow_neg, div_eq_mul_inv]; norm_num
  have e2 : ((54975575 : ℕ) : ℚ) * (2 : ℚ) ^ (-16 : ℤ) = (54975575 : ℚ) / 65536 := by
    rw [zpow_neg, div_eq_mul_inv]; norm_num
  constructor
  · rw [← e1]
    exact dyadic_le_fl64 _ 54975574 (-16) (by norm_num) (by norm_num) (by norm_num)
      (by rw [e1]; norm_num)
  · rw [← e2]
    exact fl64_le_dyadic _ 54975575 (-16) (by norm_num) (by norm_num) (by norm_num)
      (by rw [e2]; norm_num)

/-- The double nearest to `83886.07` is at most a nearby dyadic number. -/
theorem other_boundary_bound : fl64 (8388607 / 100) ≤ (85899336 : ℚ) / 1024 := by
  have e2 : ((85899336 : ℕ) : ℚ) * (2 : ℚ) ^ (-10 : ℤ) = (85899336 : ℚ) / 1024 := by
    rw [zpow_neg, div_eq_mul_inv]; norm_num
  rw [← e2]
  exact fl64_le_dyadic _ 85899336 (-10) (by norm_num) (by norm_num) (by norm_num)
    (by rw [e2]; norm_num)

theorem scaleOf_gps (h : Nat) (hh : h = 0 ∨ h = 1) : scaleOf h = 10000 := by
  unfold scaleOf RRC_HEAD_GPS_LONG RRC_HEAD_GPS_LAT
  rw [if_pos hh]

theorem scaleOf_other (h : Nat) (h0 : h ≠ 0) (h1 : h ≠ 1) : scaleOf h = 100 := by
  unfold scaleOf RRC_HEAD_GPS_LONG RRC_HEAD_GPS_LAT
  rw [if_neg (by omega)]

theorem float2int_gps_boundary (h : Nat) (hh : h = 0 ∨ h = 1) :
    _float2int (fl64 (8388607 / 10000)) h = some 0x7FFFFF := by
  obtain ⟨hlo, hhi⟩ := gps_boundary_bounds
  have hv : (0 : ℚ) ≤ fl64 (8388607 / 10000) := le_trans (by norm_num) hlo
  have hs := scaleOf_gps h hh
  have h1 := le_scaled_of _ h 33554427 hv (by norm_num) (by rw [hs]; push_cast; linarith)
  have h2 := scaled_le_of _ h 33554429 hv (by norm_num) (by rw [hs]; push_cast; linarith)
  rw [float2int_of_nonneg _ h hv]
  apply double2uint32_eq _ 0x7FFFFF
  · push_cast at h1 ⊢; linarith
  · push_cast at h2 ⊢; linarith
  · norm_num

/-! ## Claims about the packet layout -/

/-- C1: after `encode(value, header, time, out)` the low 5 bits of `out[1]`,
`out[2]`, `out[3]`, `out[4]` are bits 23-19, 18-14, 13-9, 8-4 of
`q = _float2int(value, header)`, the low 5 bits of `out[5]` are bits 3-0 of `q`
(so bit 4 of `out[5]` is 0); and `encode(-2.5, 0x06, 0, out)` writes
`[0xC0,0xD0,0xC0,0xC0,0xCF,0xCA,0xC0,0xC0,0xC0,0xC0]`. -/
theorem encode_data_chunks :
    (∀ (value : ℚ) (header time q : Nat) (out : List Nat),
      RRC_DATAPACK_SIZE ≤ out.length → _float2int value header = some q →
      ∃ o, encode value header time out = some (0, o) ∧
        o.getD 1 0 % 32 = q / 2 ^ 19 % 32 ∧
        o.getD 2 0 % 32 = q / 2 ^ 14 % 32 ∧
        o.getD 3 0 % 32 = q / 2 ^ 9 % 32 ∧
        o.getD 4 0 % 32 = q / 2 ^ 4 % 32 ∧
        o.getD 5 0 % 32 = q % 16 ∧
        o.getD 5 0 / 16 % 2 = 0) ∧
    (∀ out : List Nat, out.length = 10 →
      encode (-5 / 2) 0x06 0 out
        = some (0, [0xC0, 0xD0, 0xC0, 0xC0, 0xCF, 0xCA, 0xC0, 0xC0, 0xC0, 0xC0])) := by
  constructor
  · intro value header time q out hlen hq
    refine ⟨_, encode_eq value header time q out hlen hq, ?_⟩
    simp only [packet, List.cons_append, List.getD_cons_succ, List.getD_cons_zero]
    omega
  · intro out hlen
    rw [encode_eq _ _ _ _ out (by rw [hlen]; decide) float2int_scenarioB,
      List.drop_of_length_le (le_of_eq hlen)]
    rfl

/-- Scenario B is an instance of C1: a ten-byte buffer and `-2.5` with the
temperature tag. -/
theorem encode_data_chunks_witness :
    RRC_DATAPACK_SIZE ≤ (List.replicate 10 0xAA).length ∧
    _float2int (-5 / 2) 0x06 = some 0x8000FA ∧
    ∃ o, encode (-5 / 2) 0x06 0 (List.replicate 10 0xAA) = some (0, o) ∧
        o.getD 1 0 % 32 = 0x8000FA / 2 ^ 19 % 32 ∧
        o.getD 2 0 % 32 = 0x8000FA / 2 ^ 14 % 32 ∧
        o.getD 3 0 % 32 = 0x8000FA / 2 ^ 9 % 32 ∧
        o.getD 4 0 % 32 = 0x8000FA / 2 ^ 4 % 32 ∧
        o.getD 5 0 % 32 = 0x8000FA % 16 ∧
        o.getD 5 0 / 16 % 2 = 0 :=
  ⟨by decide, float2int_scenarioB,
    encode_data_chunks.1 (-5 / 2) 0x06 0 0x8000FA (List.replicate 10 0xAA) (by decide)
      float2int_scenarioB⟩

/-- C2: after `encode(value, header, time, out)` the low 5 bits of `out[6]`,
`out[7]`, `out[8]`, `out[9]` are bits 19-15, 14-10, 9-5, 4-0 of the 32-bit
`time`; and `encode(1.0, 0x02, 5, out)` writes
`[0x40,0x40,0x40,0x40,0x46,0x44,0x40,0x40,0x40,0x45]`. -/
theorem encode_time_chunks :
    (∀ (value : ℚ) (header time q : Nat) (out : List Nat),
      time < 2 ^ 32 → RRC_DATAPACK_SIZE ≤ out.length → _float2int value header = some q →
      ∃ o, encode value header time out = some (0, o) ∧
        o.getD 6 0 % 32 = time / 2 ^ 15 % 32 ∧
        o.getD 7 0 % 32 = time / 2 ^ 10 % 32 ∧
        o.getD 8 0 % 32 = time / 2 ^ 5 % 32 ∧
        o.getD 9 0 % 32 = time % 32) ∧
    (∀ out : List Nat, out.length = 10 →
      encode 1 0x02 5 out
        = some (0, [0x40, 0x40, 0x40, 0x40, 0x46, 0x44, 0x40, 0x40, 0x40, 0x45])) := by
  constructor
  · intro value header time q out _ hlen hq
    refine ⟨_, encode_eq value header time q out hlen hq, ?_⟩
    simp only [packet, List.cons_append, List.getD_cons_succ, List.getD_cons_zero]
    omega
  · intro out hlen
    rw [encode_eq _ _ _ _ out (by rw [hlen]; decide) float2int_scenarioA,
      List.drop_of_length_le (le_of_eq hlen)]
    rfl

/-- Scenario A is an instance of C2: a ten-byte buffer, `1.0` with the
accelerometer-x tag and timestamp 5. -/
theorem encode_time_chunks_witness :
    (5 : Nat) < 2 ^ 32 ∧ RRC_DATAPACK_SIZE ≤ (List.replicate 10 0xAA).length ∧
    _float2int 1 0x02 = some 100 ∧
    ∃ o, encode 1 0x02 5 (List.replicate 10 0xAA) = some (0, o) ∧
        o.getD 6 0 % 32 = 5 / 2 ^ 15 % 32 ∧
        o.getD 7 0 % 32 = 5 / 2 ^ 10 % 32 ∧
        o.getD 8 0 % 32 = 5 / 2 ^ 5 % 32 ∧
        o.getD 9 0 % 32 = 5 % 32 :=
  ⟨by decide, by decide, float2int_scenarioA,
    encode_time_chunks.1 1 0x02 5 100 (List.replicate 10 0xAA) (by decide) (by decide)
      float2int_scenarioA⟩

/-- C3: after `encode` with an 8-bit header, bits 7-5 of each of the ten bytes
`out[0]..out[9]` equal `header & 0x07`. -/
theorem encode_tag_bits (value : ℚ) (header time q : Nat) (out : List Nat)
    (hh : header < 256) (hlen : RRC_DATAPACK_SIZE ≤ out.length)
    (hq : _float2int value header = some q) :
    ∃ o, encode value header time out = some (0, o) ∧
      ∀ i, i < 10 → o.getD i 0 / 32 = header &&& 0x07 := by
  refine ⟨_, encode_eq value header time q out hlen hq, ?_⟩
  have hm : header &&& 0x07 = header % 8 := Nat.and_pow_two_sub_one_eq_mod header 3
  rw [hm]
  intro i hi
  have h8 : header % 8 < 8 := Nat.mod_lt _ (by decide)
  have cases : i = 0 ∨ i = 1 ∨ i = 2 ∨ i = 3 ∨ i = 4 ∨ i = 5 ∨ i = 6 ∨ i = 7 ∨ i = 8 ∨ i = 9 := by
    omega
  rcases cases with h | h | h | h | h | h | h | h | h | h <;> subst h <;>
    simp only [packet, List.cons_append, List.getD_cons_succ, List.getD_cons_zero] <;> omega

/-- An instance of C3: tag `0x06`, value `-2.5`, every byte of the packet
carries `110` in its top three bits. -/
theorem encode_tag_bits_witness :
    (0x06 : Nat) < 256 ∧ RRC_DATAPACK_SIZE ≤ (List.replicate 10 0xAA).length ∧
    _float2int (-5 / 2) 0x06 = some 0x8000FA ∧
    ∃ o, encode (-5 / 2) 0x06 7 (List.replicate 10 0xAA) = some (0, o) ∧
      ∀ i, i < 10 → o.getD i 0 / 32 = 0x06 &&& 0x07 :=
  ⟨by decide, by decide, float2int_scenarioB,
    encode_tag_bits (-5 / 2) 0x06 7 0x8000FA (List.replicate 10 0xAA) (by decide) (by decide)
      float2int_scenarioB⟩

/-- C4 fails as stated: header `0` selects the GPS scale 10000 in `_float2int`
while header `0 + 8 * 1 = 8` falls into the `default:` scale 100, so the two
packets for the value `1.0` differ although both carry the tag bits `000`. -/
theorem encode_header_alias_counterexample :
    0 + 8 * 1 < 256 ∧
    encode 1 0 0 (List.replicate 10 0) = some (0, [0, 0, 0, 19, 17, 0, 0, 0, 0, 0]) ∧
    encode 1 (0 + 8 * 1) 0 (List.replicate 10 0) = some (0, [0, 0, 0, 0, 6, 4, 0, 0, 0, 0]) ∧
    encode 1 0 0 (List.replicate 10 0) ≠ encode 1 (0 + 8 * 1) 0 (List.replicate 10 0) := by
  have e0 : encode 1 0 0 (List.replicate 10 0) = some (0, [0, 0, 0, 19, 17, 0, 0, 0, 0, 0]) := by
    rw [encode_eq _ _ _ _ _ (by decide) float2int_one_gps]
    rfl
  have e8 : encode 1 (0 + 8 * 1) 0 (List.replicate 10 0)
      = some (0, [0, 0, 0, 0, 6, 4, 0, 0, 0, 0]) := by
    rw [encode_eq _ _ _ _ _ (by decide) float2int_one_eight]
    rfl
  refine ⟨by decide, e0, e8, ?_⟩
  rw [e0, e8]
  decide

/-- C4 (amended): when `h + 8 * k` fits in a byte and `h` and `h + 8 * k`
select the same scale in `_float2int` (that is `h ≥ 2`, or `k = 0`),
`encode(value, h, time, out)` and `encode(value, h + 8 * k, time, out)` write
identical output. -/
theorem encode_header_alias_same_scale (value : ℚ) (h k time q : Nat) (out : List Nat)
    (hb : h + 8 * k < 256) (hs : 2 ≤ h ∨ k = 0) (hlen : RRC_DATAPACK_SIZE ≤ out.length)
    (hq : _float2int value h = some q) :
    encode value (h + 8 * k) time out = encode value h time out ∧
    ∃ o, encode value h time out = some (0, o) := by
  have hsc : scaleOf (h + 8 * k) = scaleOf h := by
    rcases hs with h2 | h0
    · unfold scaleOf RRC_HEAD_GPS_LONG RRC_HEAD_GPS_LAT
      rw [if_neg (by omega), if_neg (by omega)]
    · rw [h0]; rfl
  have hq2 : _float2int value (h + 8 * k) = some q := by
    rw [float2int_congr value _ _ hsc]; exact hq
  have hp : packet q (h + 8 * k) time = packet q h time := by
    unfold packet
    rw [Nat.add_mul_mod_self_left]
  refine ⟨?_, _, encode_eq value h time q out hlen hq⟩
  rw [encode_eq value _ time q out hlen hq2, encode_eq value h time q out hlen hq, hp]

/-- An instance of the amended C4: tags `2` and `2 + 8 * 3 = 26` with the value
`1.0`. -/
theorem encode_header_alias_same_scale_witness :
    2 + 8 * 3 < 256 ∧ (2 ≤ 2 ∨ 3 = 0) ∧ RRC_DATAPACK_SIZE ≤ (List.replicate 10 0xAA).length ∧
    _float2int 1 2 = some 100 ∧
    encode 1 (2 + 8 * 3) 5 (List.replicate 10 0xAA) = encode 1 2 5 (List.replicate 10 0xAA) ∧
    ∃ o, encode 1 2 5 (List.replicate 10 0xAA) = some (0, o) :=
  ⟨by decide, by decide, by decide, float2int_scenarioA,
    encode_header_alias_same_scale 1 2 3 5 100 (List.replicate 10 0xAA) (by decide) (by decide)
      (by decide) float2int_scenarioA⟩

/-- C9: `_checksum(data) = b0 + 2*b7 + 4*b8 + 8*b15 + 16*b16` where `bi` is bit
`i` of the 32-bit `data`, and the result is below 32. -/
theorem checksum_bits (data : Nat) (hd : data < 2 ^ 32) :
    _checksum data
      = data % 2 + 2 * (data / 2 ^ 7 % 2) + 4 * (data / 2 ^ 8 % 2)
        + 8 * (data / 2 ^ 15 % 2) + 16 * (data / 2 ^ 16 % 2) ∧
    _checksum data < 32 := by
  rw [checksum_eq]
  refine ⟨rfl, ?_⟩
  omega

/-- An instance of C9: `0x018181` has bits 0, 7, 8, 15 and 16 set. -/
theorem checksum_bits_witness :
    (0x018181 : Nat) < 2 ^ 32 ∧
    (_checksum 0x018181
      = 0x018181 % 2 + 2 * (0x018181 / 2 ^ 7 % 2) + 4 * (0x018181 / 2 ^ 8 % 2)
        + 8 * (0x018181 / 2 ^ 15 % 2) + 16 * (0x018181 / 2 ^ 16 % 2) ∧
    _checksum 0x018181 < 32) :=
  ⟨by decide, checksum_bits 0x018181 (by decide)⟩

/-- C10: `out[0]` after `encode` is exactly `(header & 0x07) << 5`, its low 5
bits are zero, and the packet is the same whatever value the local `checks`
holds: the fingerprint `_checksum(_float2int(value, header))` reaches no byte. -/
theorem encode_byte0_no_checksum (value : ℚ) (header time q : Nat) (out : List Nat)
    (hlen : RRC_DATAPACK_SIZE ≤ out.length) (hq : _float2int value header = some q) :
    ∃ o, encode value header time out = some (0, o) ∧
      o.getD 0 0 = (header &&& 0x07) <<< 5 ∧
      o.getD 0 0 % 32 = 0 ∧
      ∀ checks, encodeBody q checks header time out = (0, o) := by
  refine ⟨_, encode_eq value header time q out hlen hq, ?_, ?_, ?_⟩
  · have hm : header &&& 0x07 = header % 8 := Nat.and_pow_two_sub_one_eq_mod header 3
    rw [hm, Nat.shiftLeft_eq]
    rfl
  · simp only [packet, List.cons_append, List.getD_cons_zero]
    omega
  · intro checks
    exact encodeBody_eq q checks header time out hlen

/-- An instance of C10: scenario A, where byte 0 is `0x40` for every value
of `checks`. -/
theorem encode_byte0_no_checksum_witness :
    RRC_DATAPACK_SIZE ≤ (List.replicate 10 0xAA).length ∧ _float2int 1 0x02 = some 100 ∧
    ∃ o, encode 1 0x02 5 (List.replicate 10 0xAA) = some (0, o) ∧
      o.getD 0 0 = (0x02 &&& 0x07) <<< 5 ∧
      o.getD 0 0 % 32 = 0 ∧
      ∀ checks, encodeBody 100 checks 0x02 5 (List.replicate 10 0xAA) = (0, o) :=
  ⟨by decide, float2int_scenarioA,
    encode_byte0_no_checksum 1 0x02 5 100 (List.replicate 10 0xAA) (by decide)
      float2int_scenarioA⟩


/-! ## Claims about the quantizer -/

/-- C7: for a GPS header (0 or 1) the double `838.8607` quantizes to
`0x7FFFFF`, every `v` with `0 ≤ v ≤ 838.8607` quantizes to at most `0x7FFFFF`,
and for every other header every `v` with `0 ≤ v ≤ 83886.07` quantizes to at
most `0x7FFFFF` (the bound `v ≤ c` is taken against the decimal number or
against the double nearest to it, whichever is larger). -/
theorem float2int_in_range_bound :
    (∀ h : Nat, h = 0 ∨ h = 1 → _float2int (fl64 (8388607 / 10000)) h = some 0x7FFFFF) ∧
    (∀ (h : Nat) (v : ℚ), h = 0 ∨ h = 1 → 0 ≤ v →
      v ≤ 8388607 / 10000 ∨ v ≤ fl64 (8388607 / 10000) →
      ∃ q, _float2int v h = some q ∧ q ≤ 0x7FFFFF ∧ q / 2 ^ 23 % 2 = 0) ∧
    (∀ (h : Nat) (v : ℚ), h ≠ 0 → h ≠ 1 → 0 ≤ v →
      v ≤ 8388607 / 100 ∨ v ≤ fl64 (8388607 / 100) →
      ∃ q, _float2int v h = some q ∧ q ≤ 0x7FFFFF ∧ q / 2 ^ 23 % 2 = 0) := by
  refine ⟨float2int_gps_boundary, ?_, ?_⟩
  · intro h v hh hv hle
    have hs := scaleOf_gps h hh
    have hb : v ≤ (54975575 : ℚ) / 65536 := by
      rcases hle with h1 | h1
      · exact le_trans h1 (by norm_num)
      · exact le_trans h1 gps_boundary_bounds.2
    obtain ⟨q, hq, hq2⟩ := float2int_le_max v h hv (by rw [hs]; linarith)
    exact ⟨q, hq, hq2, by omega⟩
  · intro h v h0 h1 hv hle
    have hs := scaleOf_other h h0 h1
    have hb : v ≤ (85899336 : ℚ) / 1024 := by
      rcases hle with h1 | h1
      · exact le_trans h1 (by norm_num)
      · exact le_trans h1 other_boundary_bound
    obtain ⟨q, hq, hq2⟩ := float2int_le_max v h hv (by rw [hs]; linarith)
    exact ⟨q, hq, hq2, by omega⟩

/-- An instance of C7: the GPS longitude tag and the reading `1.0`. -/
theorem float2int_in_range_bound_witness :
    ((0 : Nat) = 0 ∨ (0 : Nat) = 1) ∧ (0 : ℚ) ≤ 1 ∧
    ((1 : ℚ) ≤ 8388607 / 10000 ∨ (1 : ℚ) ≤ fl64 (8388607 / 10000)) ∧
    ∃ q, _float2int 1 0 = some q ∧ q ≤ 0x7FFFFF ∧ q / 2 ^ 23 % 2 = 0 :=
  ⟨by decide, by norm_num, Or.inl (by norm_num),
    float2int_in_range_bound.2.1 0 1 (by decide) (by norm_num) (Or.inl (by norm_num))⟩

/-- C8 at the failing input: the finite value `200000.0` with tag `0x02` is
converted to `20000000 = 0x1312D00`, which is not below `2^24`; `_float2int`
never masks the magnitude. -/
theorem float2int_exceeds_24_bits :
    isDouble 200000 ∧ _float2int 200000 0x02 = some 20000000 ∧ ¬ (20000000 < 2 ^ 24) := by
  refine ⟨?_, float2int_two_hundred_thousand, by decide⟩
  have := isDouble_natCast 200000 (by norm_num)
  exact_mod_cast this

/-! ## Further lemmas about the packet -/

theorem packet_length (q header time : Nat) : (packet q header time).length = 10 := rfl

theorem packet_time_mod (q header time : Nat) :
    packet q header (time % 2 ^ 20) = packet q header time := by
  unfold packet
  have h1 : time % 2 ^ 20 / 2 ^ 15 % 32 = time / 2 ^ 15 % 32 := by omega
  have h2 : time % 2 ^ 20 / 2 ^ 10 % 32 = time / 2 ^ 10 % 32 := by omega
  have h3 : time % 2 ^ 20 / 2 ^ 5 % 32 = time / 2 ^ 5 % 32 := by omega
  have h4 : time % 2 ^ 20 % 32 = time % 32 := by omega
  rw [h1, h2, h3, h4]

theorem encode_some_iff (data : ℚ) (header time : Nat) (out : List Nat) (r : Nat × List Nat)
    (h : encode data header time out = some r) :
    RRC_DATAPACK_SIZE ≤ out.length ∧ ∃ q, _float2int data header = some q := by
  unfold encode at h
  by_cases hl : out.length < RRC_DATAPACK_SIZE
  · rw [if_pos hl] at h; exact absurd h (by simp)
  · rw [if_neg hl] at h
    refine ⟨Nat.not_lt.mp hl, ?_⟩
    cases hq : _float2int data header with
    | none => rw [hq] at h; exact absurd h (by simp)
    | some q => exact ⟨q, rfl⟩

theorem encode_time_congr (data : ℚ) (header t1 t2 : Nat) (out : List Nat)
    (hp : ∀ q, packet q header t1 = packet q header t2) :
    encode data header t1 out = encode data header t2 out := by
  by_cases hl : out.length < RRC_DATAPACK_SIZE
  · unfold encode; rw [if_pos hl, if_pos hl]
  · cases hq : _float2int data header with
    | none => unfold encode; rw [if_neg hl, if_neg hl, hq]
    | some q =>
      rw [encode_eq data header t1 q out (Nat.not_lt.mp hl) hq,
        encode_eq data header t2 q out (Nat.not_lt.mp hl) hq, hp q]

theorem float2int_hundred_thousand_ff : _float2int 100000 0xFF = some 10000000 := by
  rw [float2int_of_nonneg _ _ (by norm_num)]
  exact double2uint32_scaled_of_nat _ _ 10000000
    (by norm_num [scaleOf, RRC_HEAD_GPS_LONG, RRC_HEAD_GPS_LAT]) (by norm_num)


/-! ## Claims about masking, status, determinism and the frame -/

/-- C11: for every value, header and 32-bit time `t`, `encode(value, header, t,
out)` writes the same ten bytes as `encode(value, header, t mod 2^20, out)`:
timestamp bits 20 and above are dropped. -/
theorem encode_time_truncated (value : ℚ) (header t q : Nat) (out : List Nat)
    (ht : t < 2 ^ 32) (hlen : RRC_DATAPACK_SIZE ≤ out.length)
    (hq : _float2int value header = some q) :
    encode value header t out = encode value header (t % 2 ^ 20) out ∧
    ∃ o, encode value header t out = some (0, o) := by
  refine ⟨?_, _, encode_eq value header t q out hlen hq⟩
  exact encode_time_congr value header t (t % 2 ^ 20) out
    (fun q => (packet_time_mod q header t).symm)

/-- An instance of C11: the timestamp `2^20 + 5` is encoded like `5`. -/
theorem encode_time_truncated_witness :
    2 ^ 20 + 5 < 2 ^ 32 ∧ RRC_DATAPACK_SIZE ≤ (List.replicate 10 0xAA).length ∧
    _float2int 1 0x02 = some 100 ∧
    encode 1 0x02 (2 ^ 20 + 5) (List.replicate 10 0xAA)
      = encode 1 0x02 ((2 ^ 20 + 5) % 2 ^ 20) (List.replicate 10 0xAA) ∧
    ∃ o, encode 1 0x02 (2 ^ 20 + 5) (List.replicate 10 0xAA) = some (0, o) :=
  ⟨by decide, by decide, float2int_scenarioA,
    encode_time_truncated 1 0x02 (2 ^ 20 + 5) 100 (List.replicate 10 0xAA) (by decide)
      (by decide) float2int_scenarioA⟩

/-- C12: `encode` returns 0: every call with a defined result (a buffer of at
least ten bytes and a scaled magnitude that converts to `uint32_t`) yields
status 0, whatever the header, the timestamp or the magnitude, and no call
yields any other status. -/
theorem encode_returns_zero :
    (∀ (value : ℚ) (header time q : Nat) (out : List Nat),
      RRC_DATAPACK_SIZE ≤ out.length → _float2int value header = some q →
      ∃ o, encode value header time out = some (0, o)) ∧
    (∀ (value : ℚ) (header time r : Nat) (out o : List Nat),
      encode value header time out = some (r, o) → r = 0) := by
  constructor
  · intro value header time q out hlen hq
    exact ⟨_, encode_eq value header time q out hlen hq⟩
  · intro value header time r out o h
    obtain ⟨hlen, q, hq⟩ := encode_some_iff value header time out (r, o) h
    rw [encode_eq value header time q out hlen hq] at h
    have := Option.some.inj h
    exact (congrArg Prod.fst this).symm

/-- An instance of C12 with every field out of range: header `0xFF`, timestamp
`2^20 + 5` and the magnitude `10000000 ≥ 2^23`. -/
theorem encode_returns_zero_witness :
    RRC_DATAPACK_SIZE ≤ (List.replicate 10 0xAA).length ∧
    _float2int 100000 0xFF = some 10000000 ∧
    ∃ o, encode 100000 0xFF (2 ^ 20 + 5) (List.replicate 10 0xAA) = some (0, o) :=
  ⟨by decide, float2int_hundred_thousand_ff,
    encode_returns_zero.1 100000 0xFF (2 ^ 20 + 5) 10000000 (List.replicate 10 0xAA)
      (by decide) float2int_hundred_thousand_ff⟩

/-- C13: two invocations of `encode` with identical `(value, header, time)`
write byte-identical ten-byte output whatever the two buffers held before:
all ten bytes are overwritten before the chunks are OR-ed in. -/
theorem encode_deterministic (value : ℚ) (header time q : Nat) (out1 out2 : List Nat)
    (h1 : RRC_DATAPACK_SIZE ≤ out1.length) (h2 : RRC_DATAPACK_SIZE ≤ out2.length)
    (hq : _float2int value header = some q) :
    ∃ o1 o2, encode value header time out1 = some (0, o1) ∧
      encode value header time out2 = some (0, o2) ∧
      o1.take 10 = o2.take 10 := by
  refine ⟨_, _, encode_eq value header time q out1 h1 hq,
    encode_eq value header time q out2 h2 hq, ?_⟩
  rw [List.take_left' (packet_length q header time),
    List.take_left' (packet_length q header time)]

/-- An instance of C13: scenario A into a buffer of `0xAA` bytes and into a
longer buffer of `0x55` bytes. -/
theorem encode_deterministic_witness :
    RRC_DATAPACK_SIZE ≤ (List.replicate 10 0xAA).length ∧
    RRC_DATAPACK_SIZE ≤ (List.replicate 12 0x55).length ∧
    _float2int 1 0x02 = some 100 ∧
    ∃ o1 o2, encode 1 0x02 5 (List.replicate 10 0xAA) = some (0, o1) ∧
      encode 1 0x02 5 (List.replicate 12 0x55) = some (0, o2) ∧
      o1.take 10 = o2.take 10 :=
  ⟨by decide, by decide, float2int_scenarioA,
    encode_deterministic 1 0x02 5 100 (List.replicate 10 0xAA) (List.replicate 12 0x55)
      (by decide) (by decide) float2int_scenarioA⟩

/-- C18: for a buffer of length `n ≥ 10`, `encode` modifies only indices 0..9:
every byte `out[i]` with `10 ≤ i < n` is the same after the call as before it,
and the buffer length is unchanged. -/
theorem encode_frame (value : ℚ) (header time q : Nat) (out : List Nat)
    (hlen : RRC_DATAPACK_SIZE ≤ out.length) (hq : _float2int value header = some q) :
    ∃ o, encode value header time out = some (0, o) ∧
      o.length = out.length ∧
      ∀ i, 10 ≤ i → i < out.length → o[i]? = out[i]? := by
  unfold RRC_DATAPACK_SIZE at hlen
  refine ⟨_, encode_eq value header time q out hlen hq, ?_, ?_⟩
  · rw [List.length_append, packet_length, List.length_drop]
    omega
  · intro i hi _
    rw [List.getElem?_append_right (by rw [packet_length]; exact hi), packet_length,
      List.getElem?_drop]
    congr 1
    omega

/-- An instance of C18: a twelve-byte buffer keeps its last two bytes. -/
theorem encode_frame_witness :
    RRC_DATAPACK_SIZE ≤ (List.replicate 12 0x55).length ∧ _float2int 1 0x02 = some 100 ∧
    ∃ o, encode 1 0x02 5 (List.replicate 12 0x55) = some (0, o) ∧
      o.length = (List.replicate 12 0x55).length ∧
      ∀ i, 10 ≤ i → i < (List.replicate 12 0x55).length →
        o[i]? = (List.replicate 12 0x55)[i]? :=
  ⟨by decide, float2int_scenarioA,
    encode_frame 1 0x02 5 100 (List.replicate 12 0x55) (by decide) float2int_scenarioA⟩

theorem isDouble_neg (v : ℚ) (hd : isDouble v) : isDouble (-v) := by
  constructor
  · rw [fl64_neg, hd.1]
  · rw [abs_neg]; exact hd.2

theorem scaled_neg (v : ℚ) (h : Nat) : scaled (-v) h = scaled v h := by
  unfold scaled; rw [abs_neg]

theorem reassemble_packet (q header time : Nat) (rest : List Nat) :
    reassembleTag (packet q header time ++ rest) = header % 8 ∧
    reassembleValue (packet q header time ++ rest) = q % 2 ^ 24 ∧
    reassembleTime (packet q header time ++ rest) = time % 2 ^ 20 := by
  unfold reassembleTag reassembleValue reassembleTime
  simp only [packet, List.cons_append, List.getD_cons_succ, List.getD_cons_zero]
  refine ⟨?_, ?_, ?_⟩ <;> omega

theorem checksum_testBit (q : Nat) :
    _checksum q = (q.testBit 0).toNat + 2 * (q.testBit 7).toNat + 4 * (q.testBit 8).toNat
      + 8 * (q.testBit 15).toNat + 16 * (q.testBit 16).toNat := by
  rw [checksum_eq]
  simp only [Nat.toNat_testBit]
  simp

theorem testBit_flip (q i j : Nat) :
    (q ^^^ 2 ^ i).testBit j = (q.testBit j ^^ decide (i = j)) := by
  rw [Nat.testBit_xor, Nat.testBit_two_pow]

theorem isDouble_hundred_thousand : isDouble 100000 := by
  have := isDouble_natCast 100000 (by norm_num)
  exact_mod_cast this

theorem scaled_hundred_thousand_lt :
    dadd (dmul 100000 (scaleOf 0x02)) (1 / 2) < (2 : ℚ) ^ (32 : ℕ) := by
  have h := scaled_of_nat 100000 0x02 10000000
    (by norm_num [scaleOf, RRC_HEAD_GPS_LONG, RRC_HEAD_GPS_LAT]) (by norm_num)
  unfold scaled at h
  rw [abs_of_pos (by norm_num : (0 : ℚ) < 100000)] at h
  rw [h]
  norm_num

theorem float2int_one_ten : _float2int 1 (0x02 + 8) = some 100 := by
  rw [float2int_of_nonneg _ _ (by norm_num)]
  exact double2uint32_scaled_of_nat _ _ 100
    (by norm_num [scaleOf, RRC_HEAD_GPS_LONG, RRC_HEAD_GPS_LAT]) (by norm_num)

theorem encode_scenarioA_aa :
    encode 1 0x02 5 (List.replicate 10 0xAA)
      = some (0, [0x40, 0x40, 0x40, 0x40, 0x46, 0x44, 0x40, 0x40, 0x40, 0x45]) := by
  rw [encode_eq _ _ _ _ _ (by decide) float2int_scenarioA]
  rfl

theorem encode_scenarioA_alias :
    encode 1 (0x02 + 8) (5 + 2 ^ 20) (List.replicate 10 0x55)
      = some (0, [0x40, 0x40, 0x40, 0x40, 0x46, 0x44, 0x40, 0x40, 0x40, 0x45]) := by
  rw [encode_eq _ _ _ _ _ (by decide) float2int_one_ten]
  rfl


/-! ## Claims about negation, the fingerprint and reassembly -/

/-- C15: for every 32-bit `q` and every bit position `i` in 0..31, flipping bit
`i` of `q` changes `_checksum` if and only if `i` is one of 0, 7, 8, 15, 16. -/
theorem checksum_flip (q i : Nat) (hq : q < 2 ^ 32) (hi : i < 32) :
    _checksum (q ^^^ 2 ^ i) ≠ _checksum q ↔ (i = 0 ∨ i = 7 ∨ i = 8 ∨ i = 15 ∨ i = 16) := by
  rw [checksum_testBit, checksum_testBit]
  simp only [testBit_flip]
  by_cases h0 : i = 0
  · subst h0
    cases q.testBit 0 <;> simp
  by_cases h7 : i = 7
  · subst h7
    cases q.testBit 7 <;> simp
  by_cases h8 : i = 8
  · subst h8
    cases q.testBit 8 <;> simp
  by_cases h15 : i = 15
  · subst h15
    cases q.testBit 15 <;> simp
  by_cases h16 : i = 16
  · subst h16
    cases q.testBit 16 <;> simp
  simp [h0, h7, h8, h15, h16]

/-- An instance of C15: flipping bit 7 of `0x018181` changes the fingerprint. -/
theorem checksum_flip_witness :
    (0x018181 : Nat) < 2 ^ 32 ∧ (7 : Nat) < 32 ∧
    (_checksum (0x018181 ^^^ 2 ^ 7) ≠ _checksum 0x018181 ↔
      ((7 : Nat) = 0 ∨ (7 : Nat) = 7 ∨ (7 : Nat) = 8 ∨ (7 : Nat) = 15 ∨ (7 : Nat) = 16)) :=
  ⟨by decide, by decide, checksum_flip 0x018181 7 (by decide) (by decide)⟩

/-- C16: for every header and every finite double `v > 0` whose scaled value
`v * scale + 0.5` converts to `uint32_t`, `_float2int(-v, header)` is
`_float2int(v, header) | 0x800000`, also when the magnitude exceeds 23 bits. -/
theorem float2int_negate (v : ℚ) (header : Nat) (hd : isDouble v) (hv : 0 < v)
    (hr : dadd (dmul v (scaleOf header)) (1 / 2) < (2 : ℚ) ^ (32 : ℕ)) :
    ∃ q, _float2int v header = some q ∧
      _float2int (-v) header = some (q ||| 0x800000) := by
  have hs : scaled v header = dadd (dmul v (scaleOf header)) (1 / 2) := by
    unfold scaled; rw [abs_of_pos hv]
  rw [← hs] at hr
  have hc := double2uint32_of_nonneg _ (scaled_nonneg v header) hr
  refine ⟨⌊scaled v header⌋.toNat, ?_, ?_⟩
  · rw [float2int_of_nonneg v header (le_of_lt hv), hc]
  · rw [float2int_of_neg (-v) header (by linarith) (isDouble_neg v hd), scaled_neg, hc]
    rfl

/-- An instance of C16 with a magnitude beyond 23 bits: `100000.0` and
`-100000.0` with tag `0x02`. -/
theorem float2int_negate_witness :
    isDouble 100000 ∧ (0 : ℚ) < 100000 ∧
    dadd (dmul 100000 (scaleOf 0x02)) (1 / 2) < (2 : ℚ) ^ (32 : ℕ) ∧
    ∃ q, _float2int 100000 0x02 = some q ∧
      _float2int (-100000) 0x02 = some (q ||| 0x800000) :=
  ⟨isDouble_hundred_thousand, by norm_num, scaled_hundred_thousand_lt,
    float2int_negate 100000 0x02 isDouble_hundred_thousand (by norm_num)
      scaled_hundred_thousand_lt⟩

/-- C17: the packet determines its three masked fields.  Reading back
`out[0] >> 5`, the low 5/5/5/5/4 bits of `out[1..5]` and the low 5 bits of
`out[6..9]` gives `header mod 8`, `_float2int(value, header) mod 2^24` and
`time mod 2^20`; hence two calls that write the same ten bytes agree on these
three values. -/
theorem encode_fields_recovered (v1 v2 : ℚ) (h1 h2 t1 t2 q1 q2 r1 r2 : Nat)
    (out1 out2 o1 o2 : List Nat)
    (e1 : encode v1 h1 t1 out1 = some (r1, o1)) (e2 : encode v2 h2 t2 out2 = some (r2, o2))
    (hq1 : _float2int v1 h1 = some q1) (hq2 : _float2int v2 h2 = some q2)
    (hsame : o1.take 10 = o2.take 10) :
    (reassembleTag o1 = h1 % 8 ∧ reassembleValue o1 = q1 % 2 ^ 24 ∧
      reassembleTime o1 = t1 % 2 ^ 20) ∧
    (h1 % 8 = h2 % 8 ∧ q1 % 2 ^ 24 = q2 % 2 ^ 24 ∧ t1 % 2 ^ 20 = t2 % 2 ^ 20) := by
  have l1 := (encode_some_iff v1 h1 t1 out1 _ e1).1
  have l2 := (encode_some_iff v2 h2 t2 out2 _ e2).1
  rw [encode_eq v1 h1 t1 q1 out1 l1 hq1] at e1
  rw [encode_eq v2 h2 t2 q2 out2 l2 hq2] at e2
  have p1 : o1 = packet q1 h1 t1 ++ out1.drop 10 := (congrArg Prod.snd (Option.some.inj e1)).symm
  have p2 : o2 = packet q2 h2 t2 ++ out2.drop 10 := (congrArg Prod.snd (Option.some.inj e2)).symm
  have hp : packet q1 h1 t1 = packet q2 h2 t2 := by
    rw [p1, p2, List.take_left' (packet_length q1 h1 t1),
      List.take_left' (packet_length q2 h2 t2)] at hsame
    exact hsame
  obtain ⟨a1, a2, a3⟩ := reassemble_packet q1 h1 t1 (out1.drop 10)
  obtain ⟨b1, b2, b3⟩ := reassemble_packet q2 h2 t2 []
  obtain ⟨c1, c2, c3⟩ := reassemble_packet q1 h1 t1 []
  rw [← p1] at a1 a2 a3
  rw [hp] at c1 c2 c3
  exact ⟨⟨a1, a2, a3⟩, c1.symm.trans b1, c2.symm.trans b2, c3.symm.trans b3⟩

/-- An instance of C17: scenario A written into two different buffers. -/
theorem encode_fields_recovered_witness :
    encode 1 0x02 5 (List.replicate 10 0xAA)
      = some (0, [0x40, 0x40, 0x40, 0x40, 0x46, 0x44, 0x40, 0x40, 0x40, 0x45]) ∧
    encode 1 (0x02 + 8) (5 + 2 ^ 20) (List.replicate 10 0x55)
      = some (0, [0x40, 0x40, 0x40, 0x40, 0x46, 0x44, 0x40, 0x40, 0x40, 0x45]) ∧
    _float2int 1 0x02 = some 100 ∧ _float2int 1 (0x02 + 8) = some 100 ∧
    (reassembleTag [0x40, 0x40, 0x40, 0x40, 0x46, 0x44, 0x40, 0x40, 0x40, 0x45] = 0x02 % 8 ∧
      reassembleValue [0x40, 0x40, 0x40, 0x40, 0x46, 0x44, 0x40, 0x40, 0x40, 0x45]
        = 100 % 2 ^ 24 ∧
      reassembleTime [0x40, 0x40, 0x40, 0x40, 0x46, 0x44, 0x40, 0x40, 0x40, 0x45]
        = 5 % 2 ^ 20) ∧
    (0x02 % 8 = (0x02 + 8) % 8 ∧ 100 % 2 ^ 24 = 100 % 2 ^ 24 ∧
      5 % 2 ^ 20 = (5 + 2 ^ 20) % 2 ^ 20) :=
  ⟨encode_scenarioA_aa, encode_scenarioA_alias, float2int_scenarioA, float2int_one_ten,
    encode_fields_recovered 1 1 0x02 (0x02 + 8) 5 (5 + 2 ^ 20) 100 100 0 0
      (List.replicate 10 0xAA) (List.replicate 10 0x55) _ _
      encode_scenarioA_aa encode_scenarioA_alias float2int_scenarioA float2int_one_ten rfl⟩


/-! ## Rounding error of binary64 operations -/

theorem roundTiesEven_err (t : ℚ) : |(roundTiesEven t : ℚ) - t| ≤ 1 / 2 := by
  have h1 := Int.floor_le t
  have h2 := Int.lt_floor_add_one t
  rw [abs_le]
  unfold roundTiesEven
  split_ifs <;> push_cast <;> constructor <;> linarith

theorem fl64_err (x : ℚ) : |fl64 x - x| ≤ ulp64 x / 2 := by
  have hu := ulp64_pos x
  have h := roundTiesEven_err (x / ulp64 x)
  have e : fl64 x - x = ((roundTiesEven (x / ulp64 x) : ℚ) - x / ulp64 x) * ulp64 x := by
    unfold fl64
    field_simp
  rw [e, abs_mul, abs_of_pos hu]
  calc |(roundTiesEven (x / ulp64 x) : ℚ) - x / ulp64 x| * ulp64 x
      ≤ 1 / 2 * ulp64 x := mul_le_mul_of_nonneg_right h (le_of_lt hu)
    _ = ulp64 x / 2 := by ring

theorem binade_le_of_lt (x : ℚ) (hx : 0 ≤ x) (h : x < (2 : ℚ) ^ (23 : ℕ)) : binade x ≤ 22 := by
  unfold binade
  rw [abs_of_nonneg hx]
  apply max_le _ (by norm_num)
  rcases eq_or_lt_of_le hx with h0 | hpos
  · rw [← h0, Int.log_zero_right]; norm_num
  · have h' : x < ((2 : ℕ) : ℚ) ^ (23 : ℤ) := by
      rw [zpow_ofNat]; exact_mod_cast h
    have := (Int.lt_zpow_iff_log_lt (by norm_num : 1 < 2) hpos).mp h'
    omega

theorem ulp64_le_of_lt (x : ℚ) (hx : 0 ≤ x) (h : x < (2 : ℚ) ^ (23 : ℕ)) :
    ulp64 x ≤ (2 : ℚ) ^ (-30 : ℤ) := by
  unfold ulp64
  exact zpow_le_zpow_right₀ (by norm_num) (by have := binade_le_of_lt x hx h; omega)

theorem lt_of_fl64_lt (w : ℚ) (hw : 0 ≤ w) (h : fl64 w < (2 : ℚ) ^ (23 : ℕ)) :
    w < (2 : ℚ) ^ (23 : ℕ) := by
  by_contra hc
  have hge : (((2 ^ 23 : ℕ) : ℚ)) * (2 : ℚ) ^ (0 : ℤ) ≤ w := by
    rw [zpow_zero, mul_one]; push_cast; exact not_lt.mp hc
  have := dyadic_le_fl64 w (2 ^ 23) 0 hw (by norm_num) (by norm_num) hge
  rw [zpow_zero, mul_one] at this
  push_cast at this
  linarith

/-- The integer produced for a non-negative reading lies within
`1/2 + 2^-30` of the exact scaled value. -/
theorem magnitude_error (v : ℚ) (h : Nat) (hv : 0 ≤ v)
    (hm : ⌊scaled v h⌋.toNat < 2 ^ 23) :
    |((⌊scaled v h⌋.toNat : ℕ) : ℚ) - v * scaleOf h| ≤ 1 / 2 + (2 : ℚ) ^ (-30 : ℤ) := by
  have hs : 0 ≤ scaleOf h := by unfold scaleOf; split_ifs <;> norm_num
  have hx : 0 ≤ v * scaleOf h := mul_nonneg hv hs
  have hz0 := scaled_nonneg v h
  have hzlt : scaled v h < (2 : ℚ) ^ (23 : ℕ) := by
    have := lt_of_floor_toNat_lt _ _ hm
    exact_mod_cast this
  have hfl : ((⌊scaled v h⌋.toNat : ℕ) : ℚ) = ((⌊scaled v h⌋ : ℤ) : ℚ) := by
    have : ((⌊scaled v h⌋.toNat : ℕ) : ℤ) = ⌊scaled v h⌋ :=
      Int.toNat_of_nonneg (Int.floor_nonneg.mpr hz0)
    exact_mod_cast congrArg (fun z : ℤ => (z : ℚ)) this
  rw [hfl]
  have f1 := Int.floor_le (scaled v h)
  have f2 := Int.lt_floor_add_one (scaled v h)
  have hsc : scaled v h = fl64 (fl64 (v * scaleOf h) + 1 / 2) := by
    unfold scaled dadd dmul; rw [abs_of_nonneg hv]
  have hy0 := fl64_nonneg _ hx
  have hw0 : 0 ≤ fl64 (v * scaleOf h) + 1 / 2 := by linarith
  have hwlt : fl64 (v * scaleOf h) + 1 / 2 < (2 : ℚ) ^ (23 : ℕ) :=
    lt_of_fl64_lt _ hw0 (by rw [← hsc]; exact hzlt)
  have hylt : fl64 (v * scaleOf h) < (2 : ℚ) ^ (23 : ℕ) := by linarith
  have hxlt := lt_of_fl64_lt _ hx hylt
  have e1 := fl64_err (v * scaleOf h)
  have e2 := fl64_err (fl64 (v * scaleOf h) + 1 / 2)
  have u1 := ulp64_le_of_lt _ hx hxlt
  have u2 := ulp64_le_of_lt _ hw0 hwlt
  rw [← hsc] at e2
  rw [abs_le] at e1 e2 ⊢
  obtain ⟨e1a, e1b⟩ := e1
  obtain ⟨e2a, e2b⟩ := e2
  generalize (2 : ℚ) ^ (-30 : ℤ) = d at u1 u2 ⊢
  generalize ulp64 (v * scaleOf h) = p1 at u1 e1a e1b
  generalize ulp64 (fl64 (v * scaleOf h) + 1 / 2) = p2 at u2 e2a e2b
  generalize fl64 (v * scaleOf h) = y at e1a e1b e2a e2b
  generalize v * scaleOf h = x at e1a e1b ⊢
  generalize scaled v h = z at f1 f2 e2a e2b ⊢
  generalize ((⌊z⌋ : ℤ) : ℚ) = F at f1 f2 ⊢
  constructor <;> linarith

/-! ## Evaluation of `fl64` at inputs that are not representable -/

theorem binade_eq_of (x : ℚ) (e : ℤ) (h1 : (2 : ℚ) ^ e ≤ x) (h2 : x < (2 : ℚ) ^ (e + 1))
    (he : -1022 ≤ e) : binade x = e := by
  have hpos : 0 < x := lt_of_lt_of_le (zpow_pos (by norm_num) _) h1
  have hlog : Int.log 2 x = e := by
    apply le_antisymm
    · have h2' : x < ((2 : ℕ) : ℚ) ^ (e + 1) := by exact_mod_cast h2
      have := (Int.lt_zpow_iff_log_lt (by norm_num : 1 < 2) hpos).mp h2'
      omega
    · have h1' : ((2 : ℕ) : ℚ) ^ e ≤ x := by exact_mod_cast h1
      exact (Int.zpow_le_iff_le_log (by norm_num : 1 < 2) hpos).mp h1'
  unfold binade
  rw [abs_of_pos hpos, hlog]
  exact max_eq_left he

theorem roundTiesEven_of_near (t : ℚ) (N : ℤ) (h1 : (N : ℚ) - 1 / 2 < t)
    (h2 : t < (N : ℚ) + 1 / 2) : roundTiesEven t = N := by
  have h := roundTiesEven_err t
  rw [abs_le] at h
  have a : ((roundTiesEven t : ℤ) : ℚ) < ((N + 1 : ℤ) : ℚ) := by push_cast; linarith [h.2]
  have b : ((N - 1 : ℤ) : ℚ) < ((roundTiesEven t : ℤ) : ℚ) := by push_cast; linarith [h.1]
  have a' := Int.cast_lt.mp a
  have b' := Int.cast_lt.mp b
  omega

theorem roundTiesEven_tie_odd (f : ℤ) (hodd : f % 2 = 1) :
    roundTiesEven ((f : ℚ) + 1 / 2) = f + 1 := by
  have hf : ⌊(f : ℚ) + 1 / 2⌋ = f := by
    rw [Int.floor_eq_iff]
    constructor <;> linarith
  unfold roundTiesEven
  rw [hf]
  have e : (f : ℚ) + 1 / 2 - (f : ℚ) = 1 / 2 := by ring
  rw [e, if_neg (lt_irrefl _), if_neg (lt_irrefl _), if_neg (by omega)]

/-- The product `0x1.47ae147ae147ap-8 * 100` rounds to the double just below
`0.5`. -/
theorem fl64_edge_product :
    fl64 ((2882303761517117 : ℚ) / 576460752303423488 * 100)
      = (9007199254740991 : ℚ) / 18014398509481984 := by
  have hb : binade ((2882303761517117 : ℚ) / 576460752303423488 * 100) = -2 :=
    binade_eq_of _ (-2) (by rw [zpow_neg]; norm_num)
      (by rw [show (-2 + 1 : ℤ) = -1 from rfl, zpow_neg]; norm_num) (by norm_num)
  have hu : ulp64 ((2882303761517117 : ℚ) / 576460752303423488 * 100)
      = 1 / 18014398509481984 := by
    unfold ulp64
    rw [hb, show (-2 - 52 : ℤ) = -54 from rfl, zpow_neg]
    norm_num
  have hr : roundTiesEven ((2882303761517117 : ℚ) / 576460752303423488 * 100
      / (1 / 18014398509481984)) = 9007199254740991 :=
    roundTiesEven_of_near _ 9007199254740991 (by norm_num) (by norm_num)
  unfold fl64
  rw [hu, hr]
  norm_num

/-- Adding `0.5` to the double just below `0.5` is a tie and rounds to `1.0`. -/
theorem fl64_edge_sum :
    fl64 ((9007199254740991 : ℚ) / 18014398509481984 + 1 / 2) = 1 := by
  have hb : binade ((9007199254740991 : ℚ) / 18014398509481984 + 1 / 2) = -1 :=
    binade_eq_of _ (-1) (by rw [zpow_neg]; norm_num) (by norm_num) (by norm_num)
  have hu : ulp64 ((9007199254740991 : ℚ) / 18014398509481984 + 1 / 2)
      = 1 / 9007199254740992 := by
    unfold ulp64
    rw [hb, show (-1 - 52 : ℤ) = -53 from rfl, zpow_neg]
    norm_num
  have ht : ((9007199254740991 : ℚ) / 18014398509481984 + 1 / 2) / (1 / 9007199254740992)
      = ((9007199254740991 : ℤ) : ℚ) + 1 / 2 := by norm_num
  have hr := roundTiesEven_tie_odd 9007199254740991 (by decide)
  unfold fl64
  rw [hu, ht, hr]
  norm_num

theorem scaled_edge :
    dadd (dmul ((2882303761517117 : ℚ) / 576460752303423488) 100) (1 / 2) = 1 := by
  unfold dadd dmul
  rw [fl64_edge_product, fl64_edge_sum]

theorem isDouble_edge : isDouble ((2882303761517117 : ℚ) / 576460752303423488) := by
  have e : ((2882303761517117 : ℕ) : ℚ) * (2 : ℚ) ^ (-59 : ℤ)
      = (2882303761517117 : ℚ) / 576460752303423488 := by
    rw [zpow_neg, div_eq_mul_inv]; norm_num
  constructor
  · have := fl64_dyadic 2882303761517117 (-59) (by norm_num) (by norm_num)
    rwa [e] at this
  · rw [abs_of_nonneg (by norm_num)]
    have h1 : (2882303761517117 : ℚ) / 576460752303423488 < 1 := by norm_num
    have h2 : (1 : ℚ) ≤ (2 : ℚ) ^ (1024 : ℕ) := one_le_pow₀ (by norm_num)
    linarith

theorem float2int_edge :
    _float2int ((2882303761517117 : ℚ) / 576460752303423488) 0x02 = some 1 := by
  rw [float2int_of_nonneg _ _ (by norm_num)]
  have hs : scaled ((2882303761517117 : ℚ) / 576460752303423488) 0x02 = 1 := by
    unfold scaled
    rw [abs_of_nonneg (by norm_num), scaleOf_other 2 (by decide) (by decide)]
    exact scaled_edge
  rw [hs]
  exact double2uint32_eq 1 1 (by norm_num) (by norm_num) (by norm_num)

theorem scaled_one : dadd (dmul 1 100) (1 / 2) = 201 / 2 := by
  have h := scaled_of_nat 1 0x02 100
    (by norm_num [scaleOf, RRC_HEAD_GPS_LONG, RRC_HEAD_GPS_LAT]) (by norm_num)
  unfold scaled at h
  rw [abs_of_pos (by norm_num : (0 : ℚ) < 1), scaleOf_other 2 (by decide) (by decide)] at h
  rw [h]
  norm_num

theorem floor_scaled_one : ⌊dadd (dmul 1 100) (1 / 2)⌋.toNat = 100 := by
  rw [scaled_one]
  have : ⌊(201 / 2 : ℚ)⌋ = 100 := by
    rw [Int.floor_eq_iff]; norm_num
  rw [this]; rfl

theorem isDouble_one : isDouble 1 := by
  have := isDouble_natCast 1 (by norm_num)
  exact_mod_cast this


/-! ## Claim about the quantization error -/

/-- C14 fails as stated: for the finite double `0x1.47ae147ae147ap-8`
(just below `0.005`) and tag `0x02`, the product with 100 rounds to the double
just below `0.5`, adding `0.5` rounds to `1.0`, and the code stores `m = 1`;
the error `|1/100 - v|` then exceeds `1/(2 * 100)`. -/
theorem quantization_error_counterexample :
    isDouble ((2882303761517117 : ℚ) / 576460752303423488) ∧
    (0 : ℚ) ≤ (2882303761517117 : ℚ) / 576460752303423488 ∧
    ⌊dadd (dmul ((2882303761517117 : ℚ) / 576460752303423488) 100) (1 / 2)⌋.toNat = 1 ∧
    _float2int ((2882303761517117 : ℚ) / 576460752303423488) 0x02 = some 1 ∧
    (1 : Nat) < 2 ^ 23 ∧
    ¬ (|((1 : Nat) : ℚ) / 100 - (2882303761517117 : ℚ) / 576460752303423488|
        ≤ 1 / (2 * 100)) := by
  refine ⟨isDouble_edge, by norm_num, ?_, float2int_edge, by decide, ?_⟩
  · rw [scaled_edge]
    simp
  · rw [abs_of_nonneg (by norm_num)]
    norm_num

/-- C14 (amended): for every header and every finite double `v ≥ 0` whose
rounded magnitude `m = floor(v * s + 0.5)` (evaluated in double arithmetic as
the source does, `s = 10000` for headers 0 and 1, `s = 100` otherwise) is below
`2^23`, `_float2int(v, h) = m` and `|m / s - v| ≤ 1 / (2 * s) + 2^-30 / s`:
half a unit of the last kept decimal digit plus the rounding of the two double
operations. -/
theorem quantization_error (h : Nat) (v s : ℚ) (m : Nat) (hd : isDouble v) (hv : 0 ≤ v)
    (hs : s = (if h = 0 ∨ h = 1 then 10000 else 100))
    (hm : m = ⌊dadd (dmul v s) (1 / 2)⌋.toNat) (hlt : m < 2 ^ 23) :
    _float2int v h = some m ∧
    |(m : ℚ) / s - v| ≤ 1 / (2 * s) + (2 : ℚ) ^ (-30 : ℤ) / s := by
  have hsc : scaleOf h = s := by rw [hs]; rfl
  have hm' : m = ⌊scaled v h⌋.toNat := by
    rw [hm]; unfold scaled; rw [hsc, abs_of_nonneg hv]
  have hspos : 0 < s := by rw [hs]; split_ifs <;> norm_num
  rw [hm'] at hlt ⊢
  constructor
  · rw [float2int_of_magnitude_lt v h hd hlt, if_neg (not_lt.mpr hv)]
  · have hb := magnitude_error v h hv hlt
    rw [hsc] at hb
    have e : ((⌊scaled v h⌋.toNat : ℕ) : ℚ) / s - v
        = (((⌊scaled v h⌋.toNat : ℕ) : ℚ) - v * s) / s := by
      field_simp
      ring
    have e2 : 1 / (2 * s) + (2 : ℚ) ^ (-30 : ℤ) / s = (1 / 2 + (2 : ℚ) ^ (-30 : ℤ)) / s := by
      field_simp
      ring
    rw [e, e2, abs_div, abs_of_pos hspos]
    exact div_le_div_of_nonneg_right hb (le_of_lt hspos)

/-- An instance of the amended C14: `1.0` with tag `0x02` is stored as
`m = 100`. -/
theorem quantization_error_witness :
    isDouble 1 ∧ (0 : ℚ) ≤ 1 ∧
    (100 : ℚ) = (if (2 : Nat) = 0 ∨ (2 : Nat) = 1 then 10000 else 100) ∧
    100 = ⌊dadd (dmul 1 100) (1 / 2)⌋.toNat ∧ 100 < 2 ^ 23 ∧
    (_float2int 1 2 = some 100 ∧
      |((100 : Nat) : ℚ) / 100 - 1| ≤ 1 / (2 * 100) + (2 : ℚ) ^ (-30 : ℤ) / 100) :=
  ⟨isDouble_one, by norm_num, by decide, floor_scaled_one.symm, by decide,
    quantization_error 2 1 100 100 isDouble_one (by norm_num) (by decide)
      floor_scaled_one.symm (by decide)⟩

/-! ## The stored magnitude against the exact round-half-up value -/

theorem scaled_abs (v : ℚ) (h : Nat) : scaled |v| h = scaled v h := by
  unfold scaled; rw [abs_abs]

/-- Below `2^23` the double handed to the conversion is within `2^-30` of the
exact `v * scale + 0.5`. -/
theorem scaled_err (v : ℚ) (h : Nat) (hv : 0 ≤ v) (hz : scaled v h < (2 : ℚ) ^ (23 : ℕ)) :
    |scaled v h - (v * scaleOf h + 1 / 2)| ≤ (2 : ℚ) ^ (-30 : ℤ) := by
  have hs : 0 ≤ scaleOf h := by unfold scaleOf; split_ifs <;> norm_num
  have hx : 0 ≤ v * scaleOf h := mul_nonneg hv hs
  have hsc : scaled v h = fl64 (fl64 (v * scaleOf h) + 1 / 2) := by
    unfold scaled dadd dmul; rw [abs_of_nonneg hv]
  have hy0 := fl64_nonneg _ hx
  have hw0 : 0 ≤ fl64 (v * scaleOf h) + 1 / 2 := by linarith
  have hwlt : fl64 (v * scaleOf h) + 1 / 2 < (2 : ℚ) ^ (23 : ℕ) :=
    lt_of_fl64_lt _ hw0 (by rw [← hsc]; exact hz)
  have hylt : fl64 (v * scaleOf h) < (2 : ℚ) ^ (23 : ℕ) := by linarith
  have hxlt := lt_of_fl64_lt _ hx hylt
  have e1 := fl64_err (v * scaleOf h)
  have e2 := fl64_err (fl64 (v * scaleOf h) + 1 / 2)
  have u1 := ulp64_le_of_lt _ hx hxlt
  have u2 := ulp64_le_of_lt _ hw0 hwlt
  rw [← hsc] at e2
  rw [abs_le] at e1 e2 ⊢
  obtain ⟨e1a, e1b⟩ := e1
  obtain ⟨e2a, e2b⟩ := e2
  generalize (2 : ℚ) ^ (-30 : ℤ) = d at u1 u2 ⊢
  generalize ulp64 (v * scaleOf h) = p1 at u1 e1a e1b
  generalize ulp64 (fl64 (v * scaleOf h) + 1 / 2) = p2 at u2 e2a e2b
  generalize fl64 (v * scaleOf h) = y at e1a e1b e2a e2b
  generalize v * scaleOf h = x at e1a e1b ⊢
  generalize scaled v h = z at e2a e2b ⊢
  constructor <;> linarith

/-- The stored magnitude is bracketed by the exact round-half-up values of
`|v| * scale ∓ 2^-30`. -/
theorem magnitude_bracket (v : ℚ) (h : Nat) (hm : ⌊scaled v h⌋.toNat < 2 ^ 23) :
    ⌊|v| * scaleOf h + 1 / 2 - (2 : ℚ) ^ (-30 : ℤ)⌋ ≤ ((⌊scaled v h⌋.toNat : ℕ) : ℤ) ∧
    ((⌊scaled v h⌋.toNat : ℕ) : ℤ) ≤ ⌊|v| * scaleOf h + 1 / 2 + (2 : ℚ) ^ (-30 : ℤ)⌋ := by
  have hz0 := scaled_nonneg v h
  have hzlt : scaled v h < (2 : ℚ) ^ (23 : ℕ) := by
    have := lt_of_floor_toNat_lt _ _ hm
    exact_mod_cast this
  have hcast : ((⌊scaled v h⌋.toNat : ℕ) : ℤ) = ⌊scaled v h⌋ :=
    Int.toNat_of_nonneg (Int.floor_nonneg.mpr hz0)
  have he := scaled_err |v| h (abs_nonneg v) (by rw [scaled_abs]; exact hzlt)
  rw [scaled_abs, abs_le] at he
  rw [hcast]
  constructor
  · exact Int.floor_mono (by linarith [he.1])
  · exact Int.floor_mono (by linarith [he.2])

/-! ## The double `2.675` with the accelerometer-y tag -/

theorem isDouble_2675 : isDouble ((3011782250804019 : ℚ) / 1125899906842624) := by
  have e : ((3011782250804019 : ℕ) : ℚ) * (2 : ℚ) ^ (-50 : ℤ)
      = (3011782250804019 : ℚ) / 1125899906842624 := by
    rw [zpow_neg, div_eq_mul_inv]; norm_num
  constructor
  · have := fl64_dyadic 3011782250804019 (-50) (by norm_num) (by norm_num)
    rwa [e] at this
  · rw [abs_of_nonneg (by norm_num)]
    have h1 : (3011782250804019 : ℚ) / 1125899906842624 < 3 := by norm_num
    have h2 : (3 : ℚ) ≤ (2 : ℚ) ^ (1024 : ℕ) := by
      have : (2 : ℚ) ^ (2 : ℕ) ≤ (2 : ℚ) ^ (1024 : ℕ) :=
        pow_le_pow_right₀ (by norm_num) (by norm_num)
      linarith
    linarith

/-- The product `2.675 * 100` is just below `267.5` and rounds to `267.5`. -/
theorem fl64_2675_product :
    fl64 ((3011782250804019 : ℚ) / 1125899906842624 * 100) = 535 / 2 := by
  have hb : binade ((3011782250804019 : ℚ) / 1125899906842624 * 100) = 8 :=
    binade_eq_of _ 8 (by norm_num) (by norm_num) (by norm_num)
  have hu : ulp64 ((3011782250804019 : ℚ) / 1125899906842624 * 100)
      = 1 / 17592186044416 := by
    unfold ulp64
    rw [hb, show (8 - 52 : ℤ) = -44 from rfl, zpow_neg]
    norm_num
  have hr : roundTiesEven ((3011782250804019 : ℚ) / 1125899906842624 * 100
      / (1 / 17592186044416)) = 4705909766881280 :=
    roundTiesEven_of_near _ 4705909766881280 (by norm_num) (by norm_num)
  unfold fl64
  rw [hu, hr]
  norm_num

theorem scaled_2675 :
    dadd (dmul ((3011782250804019 : ℚ) / 1125899906842624) 100) (1 / 2) = 268 := by
  unfold dadd dmul
  rw [fl64_2675_product]
  have h := fl64_dyadic 268 0 (by norm_num) (by norm_num)
  have e : ((268 : ℕ) : ℚ) * (2 : ℚ) ^ (0 : ℤ) = 535 / 2 + 1 / 2 := by norm_num
  rw [e] at h
  rw [h]
  norm_num

theorem float2int_2675 :
    _float2int ((3011782250804019 : ℚ) / 1125899906842624) 0x03 = some 268 := by
  rw [float2int_of_nonneg _ _ (by norm_num)]
  have hs : scaled ((3011782250804019 : ℚ) / 1125899906842624) 0x03 = 268 := by
    unfold scaled
    rw [abs_of_nonneg (by norm_num), scaleOf_other 3 (by decide) (by decide)]
    exact scaled_2675
  rw [hs]
  exact double2uint32_eq 268 268 (by norm_num) (by norm_num) (by norm_num)

theorem exact_floor_2675 :
    ⌊|(3011782250804019 : ℚ) / 1125899906842624| * 100 + 1 / 2⌋.toNat = 267 := by
  rw [abs_of_nonneg (by norm_num)]
  have : ⌊(3011782250804019 : ℚ) / 1125899906842624 * 100 + 1 / 2⌋ = 267 := by
    rw [Int.floor_eq_iff]; norm_num
  rw [this]; rfl

/-! ## The sign bit of a negative reading -/

theorem sign_bit_of_or (m : Nat) : (m ||| 2 ^ 23) / 2 ^ 19 % 32 / 16 % 2 = 1 := by
  have h : ((m ||| 2 ^ 23).testBit 23).toNat = 1 := by
    rw [Nat.testBit_or, Nat.testBit_two_pow_self, Bool.or_true]
    rfl
  rw [Nat.toNat_testBit] at h
  omega

/-- For every defined call with a negative finite value, bit 4 of `out[1]` is
set, whatever the magnitude. -/
theorem encode_sign_bit_of_neg (value : ℚ) (header time : Nat) (out : List Nat)
    (hd : isDouble value) (hv : value < 0)
    (hr : scaled value header < (2 : ℚ) ^ (32 : ℕ))
    (hlen : RRC_DATAPACK_SIZE ≤ out.length) :
    ∃ o, encode value header time out = some (0, o) ∧ o.getD 1 0 / 16 % 2 = 1 := by
  have hq : _float2int value header = some (⌊scaled value header⌋.toNat ||| 2 ^ 23) := by
    rw [float2int_of_neg value header hv hd,
      double2uint32_of_nonneg _ (scaled_nonneg value header) hr]
    rfl
  refine ⟨_, encode_eq value header time _ out hlen hq, ?_⟩
  simp only [packet, List.cons_append, List.getD_cons_succ, List.getD_cons_zero]
  have := sign_bit_of_or ⌊scaled value header⌋.toNat
  omega

/-- When the magnitude stored by the code is below `2^23`, bit 4 of `out[1]`
is 1 exactly for negative values. -/
theorem encode_sign_bit_in_range (value : ℚ) (header time : Nat) (out : List Nat)
    (hd : isDouble value) (hm : ⌊scaled value header⌋.toNat < 2 ^ 23)
    (hlen : RRC_DATAPACK_SIZE ≤ out.length) :
    ∃ o, encode value header time out = some (0, o) ∧
      (o.getD 1 0 / 16 % 2 = 1 ↔ value < 0) := by
  have hq := float2int_of_magnitude_lt value header hd hm
  refine ⟨_, encode_eq value header time _ out hlen hq, ?_⟩
  simp only [packet, List.cons_append, List.getD_cons_succ, List.getD_cons_zero]
  by_cases hv : value < 0
  · simp only [if_pos hv, iff_true_right hv]
    omega
  · simp only [if_neg hv, iff_false_right hv]
    omega


/-! ## Claims about the sign bit and the stored magnitude -/

/-- C5 at the failing input: the finite positive value `100000.0` with tag
`0x02` is scaled to `10000000 = 0x989680 ≥ 2^23`; `_float2int` never reduces
the magnitude to 23 bits, so its bit 23 lands in the sign position and `encode`
writes `out[1] = 0x53`, whose bit 4 is 1 although the value is not negative. -/
theorem encode_sign_bit_positive_value :
    isDouble 100000 ∧ ¬ ((100000 : ℚ) < 0) ∧
    _float2int 100000 0x02 = some 0x989680 ∧
    encode 100000 0x02 0 (List.replicate 10 0)
      = some (0, [0x40, 0x53, 0x42, 0x4B, 0x48, 0x40, 0x40, 0x40, 0x40, 0x40]) ∧
    (0x53 : Nat) / 16 % 2 = 1 := by
  refine ⟨isDouble_hundred_thousand, by norm_num, float2int_hundred_thousand, ?_, by decide⟩
  rw [encode_eq _ _ _ _ _ (by decide) float2int_hundred_thousand]
  rfl

/-- C6 fails as stated: for the finite double `2.675` with tag `0x03` the exact
round-half-up magnitude `floor(|v| * 100 + 0.5)` is 267, below `2^23`, but the
product rounds to the double `267.5`, so the code returns 268. -/
theorem float2int_round_half_up_counterexample :
    isDouble ((3011782250804019 : ℚ) / 1125899906842624) ∧
    (0 : ℚ) ≤ (3011782250804019 : ℚ) / 1125899906842624 ∧
    (100 : ℚ) = (if (3 : Nat) = 0 ∨ (3 : Nat) = 1 then 10000 else 100) ∧
    ⌊|(3011782250804019 : ℚ) / 1125899906842624| * 100 + 1 / 2⌋.toNat = 267 ∧
    (267 : Nat) < 2 ^ 23 ∧
    _float2int ((3011782250804019 : ℚ) / 1125899906842624) 0x03 = some 268 ∧
    _float2int ((3011782250804019 : ℚ) / 1125899906842624) 0x03 ≠ some 267 := by
  refine ⟨isDouble_2675, by norm_num, by decide, exact_floor_2675, by decide,
    float2int_2675, ?_⟩
  rw [float2int_2675]
  decide

/-- C6 (amended): for every header `h` and every finite double `v` whose
rounded magnitude `m = floor(|v| * s + 0.5)`, evaluated in double arithmetic as
the source does (product and sum each rounded to binary64, `s = 10000` for
headers 0 and 1 and `s = 100` otherwise), is below `2^23`, `_float2int(v, h)`
is `m` when `v ≥ 0` and `m + 2^23` when `v < 0`, and `m` lies between the exact
`floor(|v| * s + 0.5 - 2^-30)` and `floor(|v| * s + 0.5 + 2^-30)`; and
`_float2int(0.0, 0) = 0`, so `encode(0.0, 0x00, 0, out)` writes ten zero
bytes. -/
theorem float2int_sign_magnitude :
    (∀ (h : Nat) (v s : ℚ) (m : Nat), isDouble v →
      s = (if h = 0 ∨ h = 1 then 10000 else 100) →
      m = ⌊dadd (dmul |v| s) (1 / 2)⌋.toNat → m < 2 ^ 23 →
      (0 ≤ v → _float2int v h = some m) ∧ (v < 0 → _float2int v h = some (m + 2 ^ 23)) ∧
      ⌊|v| * s + 1 / 2 - (2 : ℚ) ^ (-30 : ℤ)⌋ ≤ (m : ℤ) ∧
      (m : ℤ) ≤ ⌊|v| * s + 1 / 2 + (2 : ℚ) ^ (-30 : ℤ)⌋) ∧
    _float2int 0 0x00 = some 0 ∧
    (∀ out : List Nat, out.length = 10 →
      encode 0 0x00 0 out = some (0, [0, 0, 0, 0, 0, 0, 0, 0, 0, 0])) := by
  refine ⟨?_, float2int_zero, ?_⟩
  · intro h v s m hd hs hm hlt
    have hsc : scaleOf h = s := by rw [hs]; rfl
    have hm' : m = ⌊scaled v h⌋.toNat := by rw [hm]; unfold scaled; rw [hsc]
    rw [hm'] at hlt ⊢
    have hq := float2int_of_magnitude_lt v h hd hlt
    have hb := magnitude_bracket v h hlt
    rw [hsc] at hb
    refine ⟨?_, ?_, hb.1, hb.2⟩
    · intro hv
      rw [hq, if_neg (not_lt.mpr hv)]
    · intro hv
      rw [hq, if_pos hv]
  · intro out hlen
    rw [encode_eq _ _ _ _ out (by rw [hlen]; decide) float2int_zero,
      List.drop_of_length_le (le_of_eq hlen)]
    rfl

/-- An instance of the amended C6: `-2.5` with the temperature tag has
`m = 250` and quantizes to `250 + 2^23`. -/
theorem float2int_sign_magnitude_witness :
    isDouble (-5 / 2) ∧ (100 : ℚ) = (if (6 : Nat) = 0 ∨ (6 : Nat) = 1 then 10000 else 100) ∧
    250 = ⌊dadd (dmul |(-5 / 2 : ℚ)| 100) (1 / 2)⌋.toNat ∧ 250 < 2 ^ 23 ∧
    ((0 ≤ (-5 / 2 : ℚ) → _float2int (-5 / 2) 6 = some 250) ∧
      ((-5 / 2 : ℚ) < 0 → _float2int (-5 / 2) 6 = some (250 + 2 ^ 23)) ∧
      ⌊|(-5 / 2 : ℚ)| * 100 + 1 / 2 - (2 : ℚ) ^ (-30 : ℤ)⌋ ≤ ((250 : Nat) : ℤ) ∧
      ((250 : Nat) : ℤ) ≤ ⌊|(-5 / 2 : ℚ)| * 100 + 1 / 2 + (2 : ℚ) ^ (-30 : ℤ)⌋) :=
  ⟨isDouble_neg_five_halves, by decide, floor_scaled_neg_five_halves.symm, by decide,
    float2int_sign_magnitude.1 6 (-5 / 2) 100 250 isDouble_neg_five_halves (by decide)
      floor_scaled_neg_five_halves.symm (by decide)⟩

end RRC
